import Mathlib

/-!
# Verification of the megacloud key-extractor against its specification

Shallow embedding of the deobfuscation/key-extraction engine.  Each
definition mirrors one function of the JavaScript source (the file and
function are named in its doc comment); theorems settle the claims about
the specification.
-/

namespace KeyExtractor

/-! ## Validator (src/unnamed/part_003, `keyValidator.js`) -/

/-- One character of the regex class `[0-9a-fA-F]`. -/
def isHexDigitChar (c : Char) : Bool :=
  (('0' ≤ c) && (c ≤ '9')) || (('a' ≤ c) && (c ≤ 'f')) || (('A' ≤ c) && (c ≤ 'F'))

/-- `/^[0-9a-fA-F]*$/.test s` (the Kleene-star form used by `validateKey`):
every character is a hex digit; the empty string passes. -/
def isHexStr (s : String) : Bool := s.data.all isHexDigitChar

/-- `/^[0-9a-fA-F]+$/.test s` (the `+` form used by the fromCharCode
categorizer and the direct scan): nonempty and every character hex. -/
def isHexStrPlus (s : String) : Bool := (!s.data.isEmpty) && s.data.all isHexDigitChar

/-- `const VALID_KEY_LENGTHS = [16, 24, 32, 48, 51, 64];` -/
def VALID_KEY_LENGTHS : List Nat := [16, 24, 32, 48, 51, 64]

/-- Result object of `validateKey` / `validateConcatenatedKey`: exactly one
of the three flags `isValidKey`, `isNonHex`, `isWrongLength` is set, and the
wrong-length case records `actualLength`.  `segments` is present only on
results built by `validateConcatenatedKey` (empty otherwise). -/
inductive ValidationResult where
  | isValidKey (key : String) (source : String) (extractorType : String)
      (segments : List String)
  | isNonHex (key : String) (source : String) (extractorType : String)
      (segments : List String)
  | isWrongLength (key : String) (source : String) (extractorType : String)
      (segments : List String) (actualLength : Nat)
deriving DecidableEq, Repr

/-- `validateKey(keyString, sourceName, type)` from `keyValidator.js`. -/
def validateKey (keyString : String) (sourceName : String) (extractorType : String) :
    ValidationResult :=
  let isHex := isHexStr keyString
  let isValidLength := VALID_KEY_LENGTHS.contains keyString.length
  if isValidLength then
    if isHex then .isValidKey keyString sourceName extractorType []
    else .isNonHex keyString sourceName extractorType []
  else .isWrongLength keyString sourceName extractorType [] keyString.length

/-- `validateConcatenatedKey(concatenatedString, assemblerFuncName,
involvedSegmentFuncs)`: returns `null` for a falsy (empty) string, otherwise
classifies exactly like `validateKey` with type `'concatenated_functions'`
and the segment list attached. -/
def validateConcatenatedKey (concatenatedString : String) (assemblerFuncName : String)
    (involvedSegmentFuncs : List String) : Option ValidationResult :=
  if concatenatedString.data.isEmpty then none
  else
    let isHex := isHexStr concatenatedString
    let isValidLength := VALID_KEY_LENGTHS.contains concatenatedString.length
    some <|
      if isValidLength then
        if isHex then
          .isValidKey concatenatedString assemblerFuncName "concatenated_functions"
            involvedSegmentFuncs
        else
          .isNonHex concatenatedString assemblerFuncName "concatenated_functions"
            involvedSegmentFuncs
      else
        .isWrongLength concatenatedString assemblerFuncName "concatenated_functions"
          involvedSegmentFuncs concatenatedString.length

/-! ## Candidate lists

The plugin keeps three growable arrays `foundKeys`, `nonHexCandidates`,
`wrongLengthCandidates`.  The direct scan pushes plain strings into them;
the extractors push records `{key, type, source, segments?, length?}`.  Both
shapes live in one JavaScript array, modelled by `KeyEntry`. -/

/-- An entry of one of the three candidate arrays. -/
inductive KeyEntry where
  | plainKey (value : String)
  | keyRecord (key : String) (extractorType : String) (source : String)
      (segments : List String) (recordedLength : Option Nat)
deriving DecidableEq, Repr

/-- The three candidate arrays of one extraction run. -/
structure ExtractionLists where
  foundKeys : List KeyEntry
  nonHexCandidates : List KeyEntry
  wrongLengthCandidates : List KeyEntry
deriving DecidableEq, Repr

def emptyLists : ExtractionLists := ⟨[], [], []⟩

/-- `keyExists(foundKeys, key, type)` (`extractionUtils.js`):
`foundKeys.some(fk => fk.key === key && fk.type === type)`.  A plain-string
entry has no `key`/`type` property, so it never matches. -/
def keyExists (foundKeys : List KeyEntry) (key : String) (extractorType : String) : Bool :=
  foundKeys.any fun fk =>
    match fk with
    | .keyRecord k t _ _ _ => k == key && t == extractorType
    | .plainKey _ => false

/-- `ArrayJoinExtractor.categorizeValidationResult` (src/unnamed/part_002,
lines 665-699).  Valid keys are appended to `foundKeys` unless an entry with
the same `(key, type)` pair is already present; non-hex and wrong-length
results are appended unconditionally.  Returns the lists plus the boolean
the JavaScript function returns. -/
def categorizeValidationResult (validationResult : Option ValidationResult)
    (ls : ExtractionLists) : ExtractionLists × Bool :=
  match validationResult with
  | none => (ls, false)
  | some (.isValidKey key source extractorType segments) =>
    if keyExists ls.foundKeys key extractorType then (ls, true)
    else
      ({ ls with foundKeys :=
          ls.foundKeys ++ [.keyRecord key extractorType source segments none] }, true)
  | some (.isNonHex key source extractorType segments) =>
    ({ ls with nonHexCandidates :=
        ls.nonHexCandidates ++ [.keyRecord key extractorType source segments none] }, false)
  | some (.isWrongLength key source extractorType segments actualLength) =>
    ({ ls with wrongLengthCandidates :=
        ls.wrongLengthCandidates ++
          [.keyRecord key extractorType source segments (some actualLength)] }, false)

/-- `FunctionKeyExtractor.handleExtractionResult`
(`functionKeyExtractor.js`, lines 266-295): same categorization as
`categorizeValidationResult` (deduplication on the found list only). -/
def handleExtractionResult (result : Option ValidationResult)
    (ls : ExtractionLists) : ExtractionLists :=
  match result with
  | none => ls
  | some (.isValidKey key source extractorType segments) =>
    if keyExists ls.foundKeys key extractorType then ls
    else
      { ls with foundKeys :=
          ls.foundKeys ++ [.keyRecord key extractorType source segments none] }
  | some (.isNonHex key source extractorType segments) =>
    { ls with nonHexCandidates :=
        ls.nonHexCandidates ++ [.keyRecord key extractorType source segments none] }
  | some (.isWrongLength key source extractorType segments actualLength) =>
    { ls with wrongLengthCandidates :=
        ls.wrongLengthCandidates ++
          [.keyRecord key extractorType source segments (some actualLength)] }

/-- `ArrayJoinExtractor.categorizeFromCharCodeResult` (src/unnamed/part_002,
lines 182-204): classifies a fromCharCode-derived string using length 64
only — `found` iff `key.length === 64` and hex, `nonHex` iff length 64 and
not hex, `wrongLength` otherwise. -/
def categorizeFromCharCodeResult (key : String) (source : String)
    (extractorType : String) (ls : ExtractionLists) : ExtractionLists :=
  if key.length == 64 && isHexStrPlus key then
    if keyExists ls.foundKeys key extractorType then ls
    else
      { ls with foundKeys :=
          ls.foundKeys ++ [.keyRecord key extractorType source [] none] }
  else if key.length == 64 then
    { ls with nonHexCandidates :=
        ls.nonHexCandidates ++ [.keyRecord key extractorType source [] none] }
  else
    { ls with wrongLengthCandidates :=
        ls.wrongLengthCandidates ++
          [.keyRecord key extractorType source [] (some key.length)] }

/-! ## Claims C1 and C3: classification and duplicate suppression -/

/-- A 32-character hexadecimal string, a valid key length for `validateKey`
but not for the fromCharCode categorizer. -/
def hex32Sample : String := ⟨List.replicate 32 'a'⟩

/-- C1 counterexample: the claim says every extractor's candidates are
classified `found` iff the length is in {16, 24, 32, 48, 51, 64} and all
characters are hex.  A 32-character hex string produced by the fromCharCode
extractor is instead pushed to `wrongLengthCandidates` by
`categorizeFromCharCodeResult`, which treats only length 64 as valid. -/
theorem C1_counterexample :
    VALID_KEY_LENGTHS.contains hex32Sample.length = true ∧
    isHexStr hex32Sample = true ∧
    (categorizeFromCharCodeResult hex32Sample "L" "fromCharCode_array"
        emptyLists).foundKeys = [] ∧
    (categorizeFromCharCodeResult hex32Sample "L" "fromCharCode_array"
        emptyLists).wrongLengthCandidates ≠ [] := by
  decide

/-- C1 (amended): `validateKey` classifies each candidate into exactly one
of `found`/`nonHex`/`wrongLength` with `found` iff the length is in
{16, 24, 32, 48, 51, 64} and every character is hex, `nonHex` iff the length
is in the set but a character is not hex, and `wrongLength` otherwise with
the observed length recorded; the fromCharCode categorizer instead treats
only length 64 as valid: `found` iff length 64 and hex, `nonHex` iff length
64 and not hex, `wrongLength` otherwise. -/
theorem C1_validator_classification (key src ty : String) :
    (validateKey key src ty = .isValidKey key src ty [] ↔
      key.length ∈ VALID_KEY_LENGTHS ∧ isHexStr key = true) ∧
    (validateKey key src ty = .isNonHex key src ty [] ↔
      key.length ∈ VALID_KEY_LENGTHS ∧ isHexStr key = false) ∧
    (validateKey key src ty = .isWrongLength key src ty [] key.length ↔
      key.length ∉ VALID_KEY_LENGTHS) ∧
    ((categorizeFromCharCodeResult key src ty emptyLists).foundKeys ≠ [] ↔
      key.length = 64 ∧ isHexStrPlus key = true) ∧
    ((categorizeFromCharCodeResult key src ty emptyLists).nonHexCandidates ≠ [] ↔
      key.length = 64 ∧ isHexStrPlus key = false) ∧
    ((categorizeFromCharCodeResult key src ty emptyLists).wrongLengthCandidates ≠ [] ↔
      key.length ≠ 64) := by
  have hmem : VALID_KEY_LENGTHS.contains key.length = true ↔
      key.length ∈ VALID_KEY_LENGTHS := by
    simp
  by_cases h1 : VALID_KEY_LENGTHS.contains key.length = true <;>
    by_cases h2 : isHexStr key = true <;>
      by_cases h3 : key.length = 64 <;>
        by_cases h4 : isHexStrPlus key = true <;>
          simp_all [validateKey, categorizeFromCharCodeResult, keyExists,
            emptyLists]

/-- C3 counterexample: the claim says each of the three lists suppresses
duplicate `(value, extractorType)` pairs, so a second append of the same
non-hex candidate should leave the list unchanged; in the code
`categorizeValidationResult` appends to `nonHexCandidates` unconditionally
and the list grows from one entry to two. -/
theorem C3_counterexample :
    (categorizeValidationResult (some (.isNonHex "k1" "s" "t" []))
        (categorizeValidationResult (some (.isNonHex "k1" "s" "t" []))
          emptyLists).1).1.nonHexCandidates.length = 2 ∧
    (categorizeValidationResult (some (.isNonHex "k1" "s" "t" []))
        emptyLists).1.nonHexCandidates.length = 1 := by
  decide

/-- C3 (amended): only the `foundKeys` list suppresses duplicate
`(value, extractorType)` pairs — appending a valid key whose pair already
occurs leaves the lists unchanged, in both `categorizeValidationResult` and
`handleExtractionResult` — while `nonHexCandidates` and
`wrongLengthCandidates` append every result unconditionally. -/
theorem C3_duplicate_suppression (key src ty : String) (segs : List String)
    (n : Nat) (ls : ExtractionLists)
    (h : keyExists ls.foundKeys key ty = true) :
    (categorizeValidationResult (some (.isValidKey key src ty segs)) ls).1 = ls ∧
    handleExtractionResult (some (.isValidKey key src ty segs)) ls = ls ∧
    (categorizeValidationResult (some (.isNonHex key src ty segs)) ls).1.nonHexCandidates
      = ls.nonHexCandidates ++ [.keyRecord key ty src segs none] ∧
    (categorizeValidationResult (some (.isWrongLength key src ty segs n))
        ls).1.wrongLengthCandidates
      = ls.wrongLengthCandidates ++ [.keyRecord key ty src segs (some n)] := by
  refine ⟨?_, ?_, ?_, ?_⟩ <;>
    simp [categorizeValidationResult, handleExtractionResult, h]

/-- Witness for `C3_duplicate_suppression` at a concrete list whose found
list already holds the `("k", "t")` pair. -/
theorem C3_duplicate_suppression_witness :
    (categorizeValidationResult (some (.isValidKey "k" "s" "t" []))
        ⟨[.keyRecord "k" "t" "s" [] none], [], []⟩).1
      = (⟨[.keyRecord "k" "t" "s" [] none], [], []⟩ : ExtractionLists) ∧
    handleExtractionResult (some (.isValidKey "k" "s" "t" []))
        ⟨[.keyRecord "k" "t" "s" [] none], [], []⟩
      = (⟨[.keyRecord "k" "t" "s" [] none], [], []⟩ : ExtractionLists) ∧
    (categorizeValidationResult (some (.isNonHex "k" "s" "t" []))
        ⟨[.keyRecord "k" "t" "s" [] none], [], []⟩).1.nonHexCandidates
      = [] ++ [.keyRecord "k" "t" "s" [] none] ∧
    (categorizeValidationResult (some (.isWrongLength "k" "s" "t" [] 1))
        ⟨[.keyRecord "k" "t" "s" [] none], [], []⟩).1.wrongLengthCandidates
      = [] ++ [.keyRecord "k" "t" "s" [] (some 1)] :=
  C3_duplicate_suppression "k" "s" "t" [] 1
    ⟨[.keyRecord "k" "t" "s" [] none], [], []⟩ (by decide)

/-! ## Branch simplifier (src/transformers/removeDeadBranches.js) — claim C6

Numeric literals are modelled as rationals (Babel numeric literals are
finite, so JavaScript's number comparisons agree with the rational order,
and `==`/`===` resp. `!=`/`!==` coincide on two numbers). -/

/-- Expressions as far as the dead-branch pass inspects them. -/
inductive JSExpr where
  | boolLit (value : Bool)
  | numLit (value : ℚ)
  | binExpr (op : String) (left right : JSExpr)
  | otherExpr (tag : Nat)
deriving DecidableEq, Repr

/-- Statements as far as the dead-branch pass inspects them.
`bodyStmt` stands for a non-block statement that carries a `.body`
property holding one inner statement — `while`/`for`/`do-while`/labeled/
`with` statements, and function declarations (whose `.body` is their
block-statement node, modelled as `bodyStmt tag (blockStmt ...)`);
`otherStmt` stands for statements with no `.body` property. -/
inductive JSStmt where
  | ifStmt (test : JSExpr) (consequent : JSStmt) (alternate : Option JSStmt)
  | blockStmt (body : List JSStmt)
  | bodyStmt (tag : Nat) (body : JSStmt)
  | otherStmt (tag : Nat)
deriving Repr

/-- The `switch (operator)` of the IfStatement visitor in
`removeDeadBranches.js`: comparison of two numeric-literal operands;
`none` is the `default: return` case (operator not handled). -/
def jsCompareNumericLiterals (op : String) (a b : ℚ) : Option Bool :=
  match op with
  | "<" => some (decide (a < b))
  | ">" => some (decide (a > b))
  | "<=" => some (decide (a ≤ b))
  | ">=" => some (decide (a ≥ b))
  | "==" => some (decide (a = b))
  | "===" => some (decide (a = b))
  | "!=" => some (decide (a ≠ b))
  | "!==" => some (decide (a ≠ b))
  | _ => none

/-- The `result` computed by the IfStatement visitor: a boolean literal
test, a numeric literal test (`!!value` coercion), or a comparison of two
numeric literals; `none` when `result` stays undefined and the node is left
untouched. -/
def evalIfTest : JSExpr → Option Bool
  | .boolLit b => some b
  | .numLit q => some (decide (q ≠ 0))
  | .binExpr op (.numLit a) (.numLit b) => jsCompareNumericLiterals op a b
  | _ => none

/-- `path.node.consequent.body || [path.node.consequent]`: the statement
list handed to `replaceWithMultiple`.  A block statement contributes its
statement array; a non-block statement with a truthy `.body` property
contributes that inner body — not the branch statement itself; only a
statement without a `.body` property falls back to the singleton
`[consequent]`. -/
def branchStatements : JSStmt → List JSStmt
  | .blockStmt body => body
  | .bodyStmt _ body => [body]
  | s => [s]

/-- The IfStatement visitor of `removeDeadBranches.js`: `some repl` means
the if-statement is replaced by the statement list `repl`
(`replaceWithMultiple`, or `path.remove()` as the empty list); `none`
leaves the node untouched. -/
def foldIfStatement : JSStmt → Option (List JSStmt)
  | .ifStmt test consequent alternate =>
    match evalIfTest test with
    | none => none
    | some true => some (branchStatements consequent)
    | some false =>
      match alternate with
      | some alt => some (branchStatements alt)
      | none => some []
  | _ => none

/-- One sweep of the pass over a statement list (the Program visitor's
single `programPath.traverse({ IfStatement(path) ... })` applied to the
top-level statements). -/
def removeDeadBranches (prog : List JSStmt) : List JSStmt :=
  (prog.map fun s =>
    match foldIfStatement s with
    | some repl => repl
    | none => [s]).flatten

/-- C6 counterexample: the claim says the if-statement is replaced by the
taken branch's statement list.  For `if (1 < 2) while (c) f();` the taken
branch is the while statement, yet `consequent.body` is truthy for it, so
the pass splices the loop's inner body `f();` alone — dropping the `while`
wrapper — which is not the taken branch's statement list. -/
theorem C6_counterexample :
    foldIfStatement (.ifStmt (.binExpr "<" (.numLit 1) (.numLit 2))
        (.bodyStmt 0 (.otherStmt 7)) none) = some [.otherStmt 7] ∧
    ([JSStmt.otherStmt 7] : List JSStmt) ≠ [.bodyStmt 0 (.otherStmt 7)] := by
  refine ⟨rfl, ?_⟩
  simp

/-- C6 (amended): for every if-statement whose test compares two numeric
literals with one of `<,>,<=,>=,==,===,!=,!==`, the branch simplifier
computes the boolean the operator yields natively on the two numbers, and
replaces the if-statement by `consequent.body || [consequent]` of the
taken branch — the statement array of a block branch, the inner body (not
the branch statement itself) of a non-block branch carrying a `.body`
property (while/for/labeled/function declaration), and the singleton
branch statement otherwise; symmetrically for the alternate when the test
is false, and nothing at all (removal) when the test is false and there is
no alternate. -/
theorem C6_dead_branch_folding (a b : ℚ) (consequent : JSStmt)
    (alternate : Option JSStmt) :
    (jsCompareNumericLiterals "<" a b = some (decide (a < b)) ∧
     jsCompareNumericLiterals ">" a b = some (decide (a > b)) ∧
     jsCompareNumericLiterals "<=" a b = some (decide (a ≤ b)) ∧
     jsCompareNumericLiterals ">=" a b = some (decide (a ≥ b)) ∧
     jsCompareNumericLiterals "==" a b = some (decide (a = b)) ∧
     jsCompareNumericLiterals "===" a b = some (decide (a = b)) ∧
     jsCompareNumericLiterals "!=" a b = some (decide (a ≠ b)) ∧
     jsCompareNumericLiterals "!==" a b = some (decide (a ≠ b))) ∧
    (∀ op r, jsCompareNumericLiterals op a b = some r →
      foldIfStatement (.ifStmt (.binExpr op (.numLit a) (.numLit b))
          consequent alternate) =
        some (if r then branchStatements consequent
              else match alternate with
                   | some alt => branchStatements alt
                   | none => [])) := by
  refine ⟨⟨rfl, rfl, rfl, rfl, rfl, rfl, rfl, rfl⟩, ?_⟩
  intro op r h
  cases r <;> cases alternate <;> simp [foldIfStatement, evalIfTest, h]

/-- Witness for `C6_dead_branch_folding`: folding `if (1 < 2)` keeps the
consequent. -/
theorem C6_dead_branch_folding_witness :
    foldIfStatement (.ifStmt (.binExpr "<" (.numLit 1) (.numLit 2))
        (.otherStmt 0) none) = some [.otherStmt 0] := by
  have h := (C6_dead_branch_folding 1 2 (.otherStmt 0) none).2 "<" true (by decide)
  simpa using h

/-! ## Dead-code eliminator (`removeUnusedVariables`,
src/transformers/key-extraction/core/keyExtractionPlugin.js file region,
src/unnamed continuation lines 616-641) — claim C7

The pass crawls the scope once, collects every function declaration and
variable declarator whose binding is not referenced, and removes the
collected paths — a single sweep, with no iteration to a fixed point.
A declaration is modelled by its bound name together with the identifier
references occurring in its body/initializer; `externalRefs` are reference
sites outside any of the modelled declarations. -/

structure JSDeclaration where
  name : String
  refs : List String
deriving DecidableEq, Repr

/-- `binding.referenced` as computed by the single `scope.crawl()` at entry:
the name has a reference site somewhere in the program (including inside
declarations that are about to be removed). -/
def bindingReferenced (prog : List JSDeclaration) (externalRefs : List String)
    (n : String) : Bool :=
  externalRefs.contains n || prog.any fun d => d.refs.contains n

/-- `removeUnusedVariables`: collect every declaration whose binding is
unreferenced at entry into `toRemove`, then remove them all — equivalently,
keep exactly the declarations referenced at entry. -/
def removeUnusedVariables (prog : List JSDeclaration)
    (externalRefs : List String) : List JSDeclaration :=
  prog.filter fun d => bindingReferenced prog externalRefs d.name

/-- The A→B→C chain after the only call to A is gone: A references B, B
references C, nothing references A. -/
def chainABC : List JSDeclaration :=
  [⟨"A", ["B"]⟩, ⟨"B", ["C"]⟩, ⟨"C", []⟩]

/-- C7 counterexample: the claim says a single run of the eliminator
removes all of A, B and C once the only call to A is gone.  One run of
`removeUnusedVariables` removes only A — B is still referenced from A's
body and C from B's body at crawl time — so the result is the two-element
chain, not the empty program. -/
theorem C7_counterexample :
    removeUnusedVariables chainABC [] = [⟨"B", ["C"]⟩, ⟨"C", []⟩] ∧
    removeUnusedVariables chainABC [] ≠ [] := by
  decide

/-- C7 (amended): the eliminator is a single sweep — one run removes
exactly the declarations unreferenced at entry — so on the A→B→C chain the
first run removes only A, the second only B, and the third only C;
repeated invocation (not a single run) empties the chain. -/
theorem C7_single_sweep :
    (∀ prog externalRefs,
      removeUnusedVariables prog externalRefs =
        prog.filter fun d => bindingReferenced prog externalRefs d.name) ∧
    removeUnusedVariables chainABC [] = [⟨"B", ["C"]⟩, ⟨"C", []⟩] ∧
    removeUnusedVariables (removeUnusedVariables chainABC []) [] = [⟨"C", []⟩] ∧
    removeUnusedVariables
        (removeUnusedVariables (removeUnusedVariables chainABC []) []) [] = [] := by
  exact ⟨fun _ _ => rfl, by decide, by decide, by decide⟩

/-! ## Alias resolution (claim C8)

Two implementations exist in the source:
`ConcatenatedKeyExtractor.resolveObjectName`
(`concatenatedKeyExtractor.js`, lines 52-68) returns the *original* name
when the chase revisits a name, while `resolveAlias`
(`keyExtractionPlugin.js`, lines 519-528) breaks out of the loop and
returns the *current* chase position.  The while-loops are modelled with a
fuel parameter; `none` is fuel exhaustion, proved unreachable for fuel
`m.length + 1`. -/

/-- `aliasMap[currentName]` on an association list (first binding wins). -/
def lookupAlias (m : List (String × String)) (k : String) : Option String :=
  (m.find? fun p => p.1 == k).map (·.2)

/-- The chase loop of `ConcatenatedKeyExtractor.resolveObjectName`: on
revisiting a name it returns the original `name` argument. -/
def resolveObjectNameGo (m : List (String × String)) :
    Nat → List String → String → String → Option String
  | 0, _, _, _ => none
  | fuel + 1, seen, orig, current =>
    match lookupAlias m current with
    | none => some current
    | some next =>
      if seen.contains current then some orig
      else resolveObjectNameGo m fuel (current :: seen) orig next

/-- `ConcatenatedKeyExtractor.resolveObjectName(name)`. -/
def resolveObjectName (m : List (String × String)) (name : String) : String :=
  (resolveObjectNameGo m (m.length + 1) [] name name).getD name

/-- The chase loop of the plugin's `resolveAlias`: on revisiting a name it
breaks and returns the *current* name, not the original one. -/
def resolveAliasGo (m : List (String × String)) :
    Nat → List String → String → Option String
  | 0, _, _ => none
  | fuel + 1, seen, current =>
    match lookupAlias m current with
    | none => some current
    | some next =>
      if seen.contains current then some current
      else resolveAliasGo m fuel (current :: seen) next

/-- `resolveAlias(name)` from `keyExtractionPlugin.js`. -/
def resolveAlias (m : List (String × String)) (name : String) : String :=
  (resolveAliasGo m (m.length + 1) [] name).getD name

/-- A successful lookup places the current name in the alias map's domain. -/
theorem lookupAlias_some_mem {m : List (String × String)} {k v : String}
    (h : lookupAlias m k = some v) : k ∈ m.map Prod.fst := by
  unfold lookupAlias at h
  cases hf : m.find? fun p => p.1 == k with
  | none => rw [hf] at h; simp at h
  | some p =>
    have hp := List.find?_some hf
    have hmem := List.mem_of_find?_eq_some hf
    have : p.1 = k := by simpa using hp
    subst this
    exact List.mem_map_of_mem Prod.fst hmem

/-- Fuel bound: the chase adds one unvisited domain name to `seen` per
step, so it cannot run for more steps than there are unvisited names. -/
theorem resolveObjectNameGo_ne_none (m : List (String × String)) :
    ∀ fuel seen orig current,
      ((m.map Prod.fst).toFinset \ seen.toFinset).card < fuel →
      resolveObjectNameGo m fuel seen orig current ≠ none := by
  intro fuel
  induction fuel with
  | zero => intro seen orig current h; omega
  | succ fuel ih =>
    intro seen orig current h
    unfold resolveObjectNameGo
    split
    · simp
    · rename_i next hl
      split
      · simp
      · rename_i hc
        apply ih
        have hdom : current ∈ (m.map Prod.fst).toFinset :=
          List.mem_toFinset.mpr (lookupAlias_some_mem hl)
        have hseen : current ∉ seen.toFinset := by
          simpa using hc
        have hsub : (m.map Prod.fst).toFinset \ (current :: seen).toFinset ⊆
            (m.map Prod.fst).toFinset \ seen.toFinset := by
          rw [List.toFinset_cons]
          exact Finset.sdiff_subset_sdiff (le_refl _)
            (Finset.subset_insert _ _)
        have hstrict : ((m.map Prod.fst).toFinset \ (current :: seen).toFinset).card <
            ((m.map Prod.fst).toFinset \ seen.toFinset).card := by
          apply Finset.card_lt_card
          rw [Finset.ssubset_iff_of_subset hsub]
          refine ⟨current, Finset.mem_sdiff.mpr ⟨hdom, hseen⟩, ?_⟩
          rw [List.toFinset_cons]
          simp
        omega

/-- Same fuel bound for the plugin's chase loop. -/
theorem resolveAliasGo_ne_none (m : List (String × String)) :
    ∀ fuel seen current,
      ((m.map Prod.fst).toFinset \ seen.toFinset).card < fuel →
      resolveAliasGo m fuel seen current ≠ none := by
  intro fuel
  induction fuel with
  | zero => intro seen current h; omega
  | succ fuel ih =>
    intro seen current h
    unfold resolveAliasGo
    split
    · simp
    · rename_i next hl
      split
      · simp
      · rename_i hc
        apply ih
        have hdom : current ∈ (m.map Prod.fst).toFinset :=
          List.mem_toFinset.mpr (lookupAlias_some_mem hl)
        have hseen : current ∉ seen.toFinset := by
          simpa using hc
        have hsub : (m.map Prod.fst).toFinset \ (current :: seen).toFinset ⊆
            (m.map Prod.fst).toFinset \ seen.toFinset := by
          rw [List.toFinset_cons]
          exact Finset.sdiff_subset_sdiff (le_refl _)
            (Finset.subset_insert _ _)
        have hstrict : ((m.map Prod.fst).toFinset \ (current :: seen).toFinset).card <
            ((m.map Prod.fst).toFinset \ seen.toFinset).card := by
          apply Finset.card_lt_card
          rw [Finset.ssubset_iff_of_subset hsub]
          refine ⟨current, Finset.mem_sdiff.mpr ⟨hdom, hseen⟩, ?_⟩
          rw [List.toFinset_cons]
          simp
        omega

/-- Every result of the extractor-side chase is either the original name
(cycle detected) or a name with no alias entry (chain fully resolved). -/
theorem resolveObjectNameGo_spec (m : List (String × String)) :
    ∀ fuel seen orig current r,
      resolveObjectNameGo m fuel seen orig current = some r →
      r = orig ∨ lookupAlias m r = none := by
  intro fuel
  induction fuel with
  | zero => intro seen orig current r h; simp [resolveObjectNameGo] at h
  | succ fuel ih =>
    intro seen orig current r h
    unfold resolveObjectNameGo at h
    split at h
    · rename_i hl
      simp at h
      subst h
      exact Or.inr hl
    · rename_i next hl
      split at h
      · simp at h
        exact Or.inl h.symm
      · exact ih _ _ _ _ h

/-- The fuel the wrappers pass is always sufficient. -/
theorem aliasChaseFuelSufficient (m : List (String × String)) (n : String) :
    resolveObjectNameGo m (m.length + 1) [] n n ≠ none ∧
    resolveAliasGo m (m.length + 1) [] n ≠ none := by
  have hcard : ((m.map Prod.fst).toFinset \ ([] : List String).toFinset).card <
      m.length + 1 := by
    simp only [List.toFinset_nil, Finset.sdiff_empty]
    calc (m.map Prod.fst).toFinset.card ≤ (m.map Prod.fst).length :=
          (m.map Prod.fst).toFinset_card_le
      _ = m.length := List.length_map _ _
      _ < m.length + 1 := Nat.lt_succ_self _
  exact ⟨resolveObjectNameGo_ne_none m _ _ n n hcard,
    resolveAliasGo_ne_none m _ _ n hcard⟩

/-- The alias table `a → b → c → b`: chasing from `a` enters the cycle
`b → c → b`. -/
def cycleAliasMap : List (String × String) := [("a", "b"), ("b", "c"), ("c", "b")]

/-- C8 counterexample: the claim says a chase that enters a cycle returns
the original starting name.  The plugin's `resolveAlias` on the table
`a → b → c → b`, started at `a`, terminates inside the cycle and returns
`"b"`, which still has an alias entry and differs from the original `"a"`
(the extractor-side `resolveObjectName` on the same input does return
`"a"`). -/
theorem C8_counterexample :
    resolveAlias cycleAliasMap "a" = "b" ∧
    ("b" : String) ≠ "a" ∧
    lookupAlias cycleAliasMap "b" = some "c" ∧
    resolveObjectName cycleAliasMap "a" = "a" := by
  decide

/-- C8 (amended): both resolutions terminate on every alias table and
starting name (the chase loop never exhausts the `m.length + 1` step
bound); `resolveObjectName` returns either the original name (cycle
detection) or a name with no further alias entry, while the plugin-side
`resolveAlias` is only guaranteed to terminate — on cycle detection it
returns the current chase position, which may differ from the original
name. -/
theorem C8_alias_cycle_resolution (m : List (String × String)) (n : String) :
    (resolveObjectName m n = n ∨ lookupAlias m (resolveObjectName m n) = none) ∧
    resolveObjectNameGo m (m.length + 1) [] n n ≠ none ∧
    resolveAliasGo m (m.length + 1) [] n ≠ none := by
  refine ⟨?_, (aliasChaseFuelSufficient m n).1, (aliasChaseFuelSufficient m n).2⟩
  unfold resolveObjectName
  cases hr : resolveObjectNameGo m (m.length + 1) [] n n with
  | none => exact absurd hr (aliasChaseFuelSufficient m n).1
  | some r =>
    simpa using resolveObjectNameGo_spec m _ _ _ _ _ hr

/-! ## The Babel AST fragment used by the key-extraction engine

The collectors and extractors inspect string/numeric literals,
identifiers, array and object literals, member and call expressions,
spread elements, binary expressions, functions (declarations, expressions,
arrows) and the statement forms around them.  Object property keys are
either string literals or identifiers; both carry a plain name, so the key
is projected to a `String`.  Variable-declarator ids are inspected only
through `isIdentifier`, so they are modelled as plain names. -/

mutual
inductive KExpr where
  | stringLit (value : String)
  | numericLit (value : Int)
  | identifier (name : String)
  | arrayExpr (elements : List KExpr)
  | memberExpr (obj : KExpr) (computed : Bool) (prop : KExpr)
  | callExpr (callee : KExpr) (args : List KExpr)
  | spreadElement (argument : KExpr)
  | binaryExpr (op : String) (left right : KExpr)
  | functionExpr (isArrow : Bool) (params : List String) (body : KFuncBody)
  | objectExpr (properties : List KObjectProp)
  | assignExpr (left right : KExpr)
  | otherExpr (tag : Nat)

inductive KObjectProp where
  | objectProp (key : String) (value : KExpr)
  | objectMethod (key : String) (params : List String) (body : List KStmt)

inductive KFuncBody where
  | exprBody (e : KExpr)
  | blockBody (stmts : List KStmt)

inductive KStmt where
  | varDeclStmt (declarations : List KDeclarator)
  | exprStmt (e : KExpr)
  | returnStmt (argument : Option KExpr)
  | ifStmt (test : KExpr) (consequent : KStmt) (alternate : Option KStmt)
  | blockStmt (body : List KStmt)
  | functionDecl (name : String) (params : List String) (body : List KStmt)
  | otherStmt (tag : Nat)

inductive KDeclarator where
  | declarator (id : String) (init : Option KExpr)
end


/-- A program is the top-level statement list. -/
abbrev KProgram := List KStmt

/-- `s.split('').reverse().join('')` on a JavaScript string: character
reversal. -/
def strReverse (s : String) : String := ⟨s.data.reverse⟩

/-- `String.fromCharCode(n)` for one code: ToUint16 then the UTF-16 code
unit (codes in the surrogate range are not valid Lean scalar values and
fall back to `Char.ofNat`'s default, a case no modelled input exercises). -/
def jsFromCharCode (n : Int) : Char := Char.ofNat (n % 65536).toNat

/-- `parseInt(s, 10)`: optional sign, then the longest prefix of decimal
digits; `none` models `NaN` (no leading whitespace handling — the inputs
are literal array elements). -/
def parseIntBase10 (s : String) : Option Int :=
  let (sign, rest) :=
    match s.data with
    | '-' :: cs => ((-1 : Int), cs)
    | '+' :: cs => ((1 : Int), cs)
    | cs => ((1 : Int), cs)
  let digits := rest.takeWhile Char.isDigit
  if digits.isEmpty then none
  else some (sign * (digits.foldl (fun acc c => acc * 10 + (c.toNat - '0'.toNat)) 0 : Nat))

/-- One hex digit's value. -/
def hexDigitVal (c : Char) : Nat :=
  if '0' ≤ c ∧ c ≤ '9' then c.toNat - '0'.toNat
  else if 'a' ≤ c ∧ c ≤ 'f' then c.toNat - 'a'.toNat + 10
  else c.toNat - 'A'.toNat + 10

/-- `parseInt(s, 16)`: optional sign, optional `0x`/`0X` prefix, then the
longest prefix of hex digits; `none` models `NaN`. -/
def parseIntBase16 (s : String) : Option Int :=
  let (sign, rest) :=
    match s.data with
    | '-' :: cs => ((-1 : Int), cs)
    | '+' :: cs => ((1 : Int), cs)
    | cs => ((1 : Int), cs)
  let rest :=
    match rest with
    | '0' :: 'x' :: cs => cs
    | '0' :: 'X' :: cs => cs
    | cs => cs
  let digits := rest.takeWhile fun c => isHexDigitChar c
  if digits.isEmpty then none
  else some (sign * (digits.foldl (fun acc c => acc * 16 + hexDigitVal c) 0 : Nat))

/-- Association-list read for the JavaScript object/Map lookups
(`obj[name]`, `map.get(name)`); entries are prepended on write, so the
first match is the most recent one. -/
def assocGet {α : Type} (m : List (String × α)) (k : String) : Option α :=
  (m.find? fun p => p.1 == k).map (·.2)

/-- Write for the same tables (`obj[name] = v`, `map.set(name, v)`):
prepend, shadowing any earlier entry. -/
def assocSet {α : Type} (m : List (String × α)) (k : String) (v : α) :
    List (String × α) :=
  (k, v) :: m

/-! ## Concatenated-key extractor
(`concatenatedKeyExtractor.js`) — claim C4 -/

/-- A value of the Object Property Table: the collected AST node, or an
`ObjectMethod` node (which Babel's `isFunctionExpression` /
`isArrowFunctionExpression` do not match). -/
inductive KPropValue where
  | nodeVal (e : KExpr)
  | methodVal (params : List String) (body : List KStmt)

/-- The three lookup tables handed to `ConcatenatedKeyExtractor`. -/
structure ConcatTables where
  segmentFunctionsMap : List (String × String)
  objectPropertiesMap : List (String × List (String × KPropValue))
  aliasMap : List (String × String)

/-- A property key that is a string literal or an identifier, as read by
`t.isStringLiteral(prop) ? prop.value : prop.name`. -/
def memberPropName : KExpr → Option String
  | .stringLit v => some v
  | .identifier n => some n
  | _ => none

/-- `t.isCallExpression(parentNode)` on an optional parent. -/
def isCallExprNode : Option KExpr → Bool
  | some (.callExpr _ _) => true
  | _ => false

/-- `ConcatenatedKeyExtractor._findStringReturnInBlock` applied to the
statements of a block: first top-level `return "literal"`, recursing into
if-statement consequents/alternates when they are block statements. -/
def findStringReturnInStmts : Nat → List KStmt → Option String
  | 0, _ => none
  | _, [] => none
  | fuel + 1, stmt :: rest =>
    match stmt with
    | .returnStmt (some (.stringLit v)) => some v
    | .ifStmt _ consequent alternate =>
      match (match consequent with
             | .blockStmt b => findStringReturnInStmts fuel b
             | _ => none) with
      | some v => some v
      | none =>
        match alternate with
        | some alt =>
          match (match alt with
                 | .blockStmt b => findStringReturnInStmts fuel b
                 | _ => none) with
          | some v => some v
          | none => findStringReturnInStmts fuel rest
        | none => findStringReturnInStmts fuel rest
    | _ => findStringReturnInStmts fuel rest

/-- `ConcatenatedKeyExtractor.getStringFromNode(node, ..., parentNode)`:
three resolution attempts in source order — a direct member access
`S["a"]` (skipped when the parent is a call expression), a call on an
object property `S["b"]()` (literal value, or a function whose implicit or
block return is a string literal), and a direct segment-function call
`f()`; each failed attempt falls through to the next, and the final
fallback is `{value: null, segments: []}`. -/
def getStringFromNode (tb : ConcatTables) (fuel : Nat) (node : KExpr)
    (parentNode : Option KExpr) : Option String × List String :=
  let attempt1 : Option (String × List String) :=
    if isCallExprNode parentNode then none
    else
      match node with
      | .memberExpr (.identifier rawObjName) _ prop =>
        match memberPropName prop with
        | some propName =>
          let objName := resolveObjectName tb.aliasMap rawObjName
          match assocGet tb.objectPropertiesMap objName with
          | some props =>
            match assocGet props propName with
            | some (.nodeVal (.stringLit v)) =>
              some (v, [objName ++ "." ++ propName])
            | _ => none
          | none => none
        | none => none
      | _ => none
  match attempt1 with
  | some (v, segs) => (some v, segs)
  | none =>
    let attempt2 : Option (String × List String) :=
      match node with
      | .callExpr (.memberExpr (.identifier rawObjName) _ prop) _ =>
        match memberPropName prop with
        | some propName =>
          let objName := resolveObjectName tb.aliasMap rawObjName
          match assocGet tb.objectPropertiesMap objName with
          | some props =>
            match assocGet props propName with
            | some (.nodeVal (.stringLit v)) => some (v, [propName])
            | some (.nodeVal (.functionExpr _ _ body)) =>
              (match body with
               | .exprBody (.stringLit v) => some (v, [propName])
               | .exprBody _ => none
               | .blockBody stmts =>
                 match findStringReturnInStmts fuel stmts with
                 | some rtn => some (rtn, [propName])
                 | none => none)
            | _ => none
          | none => none
        | none => none
      | _ => none
    match attempt2 with
    | some (v, segs) => (some v, segs)
    | none =>
      match node with
      | .callExpr (.identifier calleeName) _ =>
        (match assocGet tb.segmentFunctionsMap calleeName with
         | some segmentValue => (some segmentValue, [calleeName])
         | none => (none, []))
      | _ => (none, [])

/-- `ConcatenatedKeyExtractor.flattenConcatenation`: recurse through `+`
and `|` binary expressions, resolving every other node as a leaf via
`getStringFromNode` (with the enclosing binary expression as parent);
returns the part list (with `none` for unresolved leaves) and the
accumulated segment names. -/
def flattenConcatenation (tb : ConcatTables) (fuel : Nat) (node : KExpr)
    (parentNode : Option KExpr) : List (Option String) × List String :=
  match node with
  | .binaryExpr op l r =>
    if op == "+" || op == "|" then
      let (pl, sl) := flattenConcatenation tb fuel l (some (.binaryExpr op l r))
      let (pr, sr) := flattenConcatenation tb fuel r (some (.binaryExpr op l r))
      (pl ++ pr, sl ++ sr)
    else
      let (v, segs) := getStringFromNode tb fuel (.binaryExpr op l r) parentNode
      ([v], segs)
  | e =>
    let (v, segs) := getStringFromNode tb fuel e parentNode
    ([v], segs)

/-- The leaves `flattenConcatenation` resolves, in order. -/
def chainLeaves : KExpr → List KExpr
  | .binaryExpr op l r =>
    if op == "+" || op == "|" then chainLeaves l ++ chainLeaves r
    else [.binaryExpr op l r]
  | e => [e]

/-- Number of binary-expression nodes along the chain spine (an induction
measure). -/
def binDepth : KExpr → Nat
  | .binaryExpr _ l r => binDepth l + binDepth r + 1
  | _ => 0

/-- `ConcatenatedKeyExtractor.deriveAndValidate(returnArgumentNode,
assemblerFuncName)`: a `+`/`|` binary chain is flattened (any
unresolved part makes the derived string `null`); a call expression is
resolved directly; everything else is not processed.  A `null` derived
string yields `null`; otherwise the string is validated via
`validateConcatenatedKey`. -/
def deriveAndValidate (tb : ConcatTables) (fuel : Nat)
    (returnArgumentNode : Option KExpr) (assemblerFuncName : String) :
    Option ValidationResult :=
  match returnArgumentNode with
  | some (.binaryExpr op l r) =>
    if op == "+" || op == "|" then
      let parts := flattenConcatenation tb fuel (.binaryExpr op l r) none
      if parts.1.any (fun p => p.isNone) then none
      else
        let concatenatedString := String.join (parts.1.map (fun p => p.getD ""))
        validateConcatenatedKey concatenatedString assemblerFuncName parts.2
    else none
  | some (.callExpr callee args) =>
    let (value, segments) := getStringFromNode tb fuel (.callExpr callee args) none
    match value with
    | none => none
    | some s => validateConcatenatedKey s assemblerFuncName segments
  | _ => none

/-- `getStringFromNode` only inspects the parent through
`isCallExpression`, so any non-call parent behaves like no parent. -/
theorem getStringFromNode_parent (tb : ConcatTables) (fuel : Nat)
    (node : KExpr) (p : Option KExpr) (hp : isCallExprNode p = false) :
    getStringFromNode tb fuel node p = getStringFromNode tb fuel node none := by
  unfold getStringFromNode
  rw [hp]
  rfl

/-- The parts produced by `flattenConcatenation` are exactly the leaf
resolutions, leaf by leaf. -/
theorem flattenConcatenation_parts (tb : ConcatTables) (fuel : Nat) :
    ∀ n (node : KExpr) (p : Option KExpr), binDepth node ≤ n →
      isCallExprNode p = false →
      (flattenConcatenation tb fuel node p).1 =
        (chainLeaves node).map (fun leaf => (getStringFromNode tb fuel leaf none).1) := by
  intro n
  induction n with
  | zero =>
    intro node p hd hp
    cases node <;>
      simp [flattenConcatenation, chainLeaves,
        getStringFromNode_parent tb fuel _ p hp]
    simp [binDepth] at hd
  | succ n ih =>
    intro node p hd hp
    cases node <;>
      simp [flattenConcatenation, chainLeaves,
        getStringFromNode_parent tb fuel _ p hp]
    rename_i op l r
    by_cases hop : op = "+" ∨ op = "|"
    · have hdl : binDepth l ≤ n := by simp [binDepth] at hd; omega
      have hdr : binDepth r ≤ n := by simp [binDepth] at hd; omega
      simp [hop, ih l (some (.binaryExpr op l r)) hdl rfl,
        ih r (some (.binaryExpr op l r)) hdr rfl]
    · simp [hop, getStringFromNode_parent tb fuel _ p hp]

/-- C4: for an assembler-function return expression that is a `+`/`|`
chain, if any leaf of the chain fails to resolve to a string, the
concatenated-function extractor produces no result at all — and therefore
`handleExtractionResult` records nothing in any of the three candidate
lists. -/
theorem C4_no_partial_keys (tb : ConcatTables) (fuel : Nat) (op : String)
    (l r : KExpr) (assemblerFuncName : String) (leaf : KExpr)
    (hop : op = "+" ∨ op = "|")
    (hleaf : leaf ∈ chainLeaves (.binaryExpr op l r))
    (hunresolved : (getStringFromNode tb fuel leaf none).1 = none) :
    deriveAndValidate tb fuel (some (.binaryExpr op l r)) assemblerFuncName = none ∧
    ∀ ls, handleExtractionResult
        (deriveAndValidate tb fuel (some (.binaryExpr op l r)) assemblerFuncName) ls
      = ls := by
  have hop' : (op == "+" || op == "|") = true := by
    rcases hop with h | h <;> simp [h]
  have hparts : (flattenConcatenation tb fuel (.binaryExpr op l r) none).1 =
      (chainLeaves (.binaryExpr op l r)).map
        (fun leaf => (getStringFromNode tb fuel leaf none).1) :=
    flattenConcatenation_parts tb fuel (binDepth (.binaryExpr op l r))
      (.binaryExpr op l r) none (le_refl _) rfl
  have hany : (flattenConcatenation tb fuel (.binaryExpr op l r) none).1.any
      (fun p => p.isNone) = true := by
    rw [hparts, List.any_eq_true]
    refine ⟨(getStringFromNode tb fuel leaf none).1,
      List.mem_map_of_mem _ hleaf, ?_⟩
    rw [hunresolved]
    rfl
  have hmain : deriveAndValidate tb fuel (some (.binaryExpr op l r))
      assemblerFuncName = none := by
    simp [deriveAndValidate, hop', hany]
  exact ⟨hmain, fun ls => by rw [hmain]; rfl⟩

/-- A sample segment table knowing only `a1`. -/
def sampleConcatTables : ConcatTables :=
  ⟨[("a1", "aaaa")], [], []⟩

/-- `a1() + zz()` where `zz` is not a known segment function. -/
def sampleBrokenChain : KExpr :=
  .binaryExpr "+" (.callExpr (.identifier "a1") []) (.callExpr (.identifier "zz") [])

/-- Witness for `C4_no_partial_keys`: the chain `a1() + zz()` with `zz`
unresolved yields no candidate and leaves the lists untouched. -/
theorem C4_no_partial_keys_witness :
    deriveAndValidate sampleConcatTables 5 (some sampleBrokenChain) "asm" = none ∧
    handleExtractionResult
        (deriveAndValidate sampleConcatTables 5 (some sampleBrokenChain) "asm")
        emptyLists
      = emptyLists := by
  have h := C4_no_partial_keys sampleConcatTables 5 "+"
    (.callExpr (.identifier "a1") []) (.callExpr (.identifier "zz") []) "asm"
    (.callExpr (.identifier "zz") []) (Or.inl rfl)
    (by simp [chainLeaves]) (by decide)
  exact ⟨h.1, h.2 emptyLists⟩

/-! ## Indexed-array mapping (`ArrayJoinExtractor.processArrayMapping`,
src/unnamed/part_002, lines 332-416) — claim C5 -/

/-- `ArrayJoinExtractor.processArrayMapping(indexArrayName,
sourceArrayName, ...)`: looks both names up in `potentialKeyArrays`,
requires every index element to be a numeric or string literal and every
source element a string literal, converts string indices with
`parseInt(·, 10)`, drops `NaN` conversions (`filter(idx => !isNaN(idx))`),
and — when every *remaining* index is within `[0, sourceStrings.length)` —
gathers `sourceStrings[index]` over the remaining indices in order and
categorizes the validated result; otherwise it only logs and leaves the
lists unchanged. -/
def processArrayMapping (arrays : List (String × KExpr))
    (indexArrayName sourceArrayName : String) (ls : ExtractionLists) :
    ExtractionLists :=
  match assocGet arrays indexArrayName, assocGet arrays sourceArrayName with
  | some (.arrayExpr idxElems), some (.arrayExpr srcElems) =>
    let areIndicesValidType := idxElems.all fun el =>
      match el with
      | .numericLit _ => true
      | .stringLit _ => true
      | _ => false
    let areSourceElementsStrings := srcElems.all fun el =>
      match el with
      | .stringLit _ => true
      | _ => false
    if areIndicesValidType && areSourceElementsStrings then
      let indices : List (Option Int) := idxElems.map fun el =>
        match el with
        | .numericLit n => some n
        | .stringLit s => parseIntBase10 s
        | _ => none
      let validIndices := indices.filterMap id
      let sourceStrings := srcElems.map fun el =>
        match el with
        | .stringLit v => v
        | _ => ""
      let allIndicesInBounds := validIndices.all fun idx =>
        0 ≤ idx && idx < (sourceStrings.length : Int)
      if allIndicesInBounds then
        let derivedKey := String.join (validIndices.map fun idx =>
          (sourceStrings.get? idx.toNat).getD "")
        let validationResult := validateKey derivedKey
          (indexArrayName ++ "->" ++ sourceArrayName) "indexed_array_map_join"
        (categorizeValidationResult (some validationResult) ls).1
      else ls
    else ls
  | _, _ => ls

/-- Gather semantics as the specification states it (spec §4.7,
array-join extractor): produce the concatenation of `src[idxs[i]]` over
every `i` in order when every index is in `[0, src.length)`, and no
candidate at all when any index is out of range. -/
def specIndexedGather (idxs : List Int) (src : List String) : Option String :=
  if idxs.all fun i => 0 ≤ i && i < (src.length : Int) then
    some (String.join (idxs.map fun i => (src.get? i.toNat).getD ""))
  else none

/-- The index array `["x", 0]` (the string `"x"` parses to `NaN`) over the
source array `["ab"]`. -/
def c5Arrays : List (String × KExpr) :=
  [("I", .arrayExpr [.stringLit "x", .numericLit 0]),
   ("S", .arrayExpr [.stringLit "ab"])]

/-- C5 counterexample: the claim says an index outside `[0, src.length)`
disqualifies the candidate.  The index `"x"` converts to `NaN`, which is
not in range, yet `processArrayMapping` silently drops it and still
produces the candidate `"ab"` (classified wrong-length) from the remaining
index. -/
theorem C5_counterexample :
    (processArrayMapping c5Arrays "I" "S" emptyLists).wrongLengthCandidates =
      [.keyRecord "ab" "indexed_array_map_join" "I->S" [] (some 2)] ∧
    processArrayMapping c5Arrays "I" "S" emptyLists ≠ emptyLists := by
  decide

/-- C5 (amended): for *numeric* literal index arrays the claim holds — the
extractor produces exactly the spec-side gather: the concatenation of
`src[idxs[i]]` over every `i` in order when all indices are in range, and
no candidate when any index is out of range.  (String indices are
converted with `parseInt(·, 10)` and `NaN` conversions are dropped rather
than disqualifying the site, per `C5_counterexample`.) -/
theorem C5_indexed_mapping (arrays : List (String × KExpr))
    (iname sname : String) (ns : List Int) (vs : List String)
    (ls : ExtractionLists)
    (hi : assocGet arrays iname = some (.arrayExpr (ns.map .numericLit)))
    (hs : assocGet arrays sname = some (.arrayExpr (vs.map .stringLit))) :
    processArrayMapping arrays iname sname ls =
      match specIndexedGather ns vs with
      | some key =>
        (categorizeValidationResult
          (some (validateKey key (iname ++ "->" ++ sname)
            "indexed_array_map_join")) ls).1
      | none => ls := by
  unfold processArrayMapping specIndexedGather
  rw [hi, hs]
  simp only [List.map_map, List.filterMap_map, Function.comp_def, id_eq]
  have hidx : ((List.map KExpr.numericLit ns).all fun el =>
      match el with
      | KExpr.numericLit _ => true
      | KExpr.stringLit _ => true
      | _ => false) = true := by
    rw [List.all_eq_true]
    intro x hx
    obtain ⟨n, -, rfl⟩ := List.mem_map.mp hx
    rfl
  have hsources : ((List.map KExpr.stringLit vs).all fun el =>
      match el with
      | KExpr.stringLit _ => true
      | _ => false) = true := by
    rw [List.all_eq_true]
    intro x hx
    obtain ⟨v, -, rfl⟩ := List.mem_map.mp hx
    rfl
  simp only [hidx, hsources, Bool.and_self, eq_self_iff_true, if_true]
  simp only [List.map_id', List.filterMap_some]
  by_cases hb : (ns.all fun i =>
      decide (0 ≤ i) && decide (i < (vs.length : Int))) = true
  · simp only [eq_true hb, if_true]
  · simp only [eq_false hb, if_false]

/-- Witness for `C5_indexed_mapping`: indices `[1, 0]` over `["b", "a"]`
produce the gathered candidate `"ab"`, recorded as wrong-length. -/
theorem C5_indexed_mapping_witness :
    processArrayMapping
        [("I", .arrayExpr [.numericLit 1, .numericLit 0]),
         ("S", .arrayExpr [.stringLit "b", .stringLit "a"])] "I" "S" emptyLists =
      match specIndexedGather [1, 0] ["b", "a"] with
      | some key =>
        (categorizeValidationResult
          (some (validateKey key ("I" ++ "->" ++ "S")
            "indexed_array_map_join")) emptyLists).1
      | none => emptyLists :=
  C5_indexed_mapping
    [("I", .arrayExpr [.numericLit 1, .numericLit 0]),
     ("S", .arrayExpr [.stringLit "b", .stringLit "a"])]
    "I" "S" [1, 0] ["b", "a"] emptyLists rfl rfl

/-! ## Babel traversal

`programPath.traverse(visitor)` visits every descendant node in pre-order
(the node a `path.traverse` starts from is itself not visited).  The
traversal is modelled by enumerating all nodes from a worklist; `fuel`
bounds the number of steps and every theorem about a traversal holds for
every fuel value. -/

/-- A traversal node: a statement or an expression. -/
abbrev KNode := KStmt ⊕ KExpr

/-- The immediate children of a node, in source order. -/
def subNodes : KNode → List KNode
  | .inl s =>
    match s with
    | .varDeclStmt ds =>
      ds.filterMap fun d =>
        match d with
        | .declarator _ (some e) => some (.inr e)
        | .declarator _ none => none
    | .exprStmt e => [.inr e]
    | .returnStmt (some e) => [.inr e]
    | .returnStmt none => []
    | .ifStmt t c a =>
      [.inr t, .inl c] ++ (match a with | some s' => [.inl s'] | none => [])
    | .blockStmt body => body.map .inl
    | .functionDecl _ _ body => body.map .inl
    | .otherStmt _ => []
  | .inr e =>
    match e with
    | .stringLit _ => []
    | .numericLit _ => []
    | .identifier _ => []
    | .arrayExpr es => es.map .inr
    | .memberExpr o _ p => [.inr o, .inr p]
    | .callExpr c args => .inr c :: args.map .inr
    | .spreadElement a => [.inr a]
    | .binaryExpr _ l r => [.inr l, .inr r]
    | .functionExpr _ _ (.exprBody b) => [.inr b]
    | .functionExpr _ _ (.blockBody body) => body.map .inl
    | .objectExpr props =>
      props.flatMap fun p =>
        match p with
        | .objectProp _ v => [.inr v]
        | .objectMethod _ _ body => body.map .inl
    | .assignExpr l r => [.inr l, .inr r]
    | .otherExpr _ => []

/-- Depth-first pre-order enumeration of a worklist of nodes and all their
descendants. -/
def allNodesGo : Nat → List KNode → List KNode
  | 0, _ => []
  | _, [] => []
  | fuel + 1, n :: rest => n :: allNodesGo fuel (subNodes n ++ rest)

/-- Every node of a program, in pre-order. -/
def allProgramNodes (fuel : Nat) (prog : KProgram) : List KNode :=
  allNodesGo fuel (prog.map .inl)

/-- `isMemberProperty(node, name)` from `keyExtractionPlugin.js` (lines
162-172): a member expression whose computed property is the string
literal `name` or whose non-computed property is the identifier `name`. -/
def isMemberProperty (node : KExpr) (name : String) : Bool :=
  match node with
  | .memberExpr _ true (.stringLit v) => v == name
  | .memberExpr _ false (.identifier n) => n == name
  | _ => false

/-- JavaScript object/`Map` write: update the existing key in place or
append a new one (preserving the for-in / iteration order). -/
def assocUpd {α : Type} (m : List (String × α)) (k : String) (v : α) :
    List (String × α) :=
  if m.any fun p => p.1 == k then
    m.map fun p => if p.1 == k then (k, v) else p
  else m ++ [(k, v)]

/-- `delete obj[k]`. -/
def assocDel {α : Type} (m : List (String × α)) (k : String) :
    List (String × α) :=
  m.filter fun p => !(p.1 == k)

/-! ## Direct scan (`keyExtractionPlugin.js`, Program visitor,
lines 333-417) -/

/-- The filter of the direct scan's first pass:
`/^[0-9a-f]+$/i.test(value) && (value.length === 32 || value.length === 64)`. -/
def hexKeyCandidate (v : String) : Bool :=
  isHexStrPlus v && (v.length == 32 || v.length == 64)

/-- One node's contribution to the direct scan's first pass: a variable
declarator with a hex string-literal initializer of length 32 or 64, or an
assignment of such a literal to an identifier, is recorded in the
`stringLiterals` map. -/
def collectKeyStringsStep (m : List (String × String)) (node : KNode) :
    List (String × String) :=
  match node with
  | .inl (.varDeclStmt ds) =>
    ds.foldl
      (fun m d =>
        match d with
        | .declarator name (some (.stringLit v)) =>
          if hexKeyCandidate v then assocUpd m name v else m
        | _ => m) m
  | .inr (.assignExpr (.identifier name) (.stringLit v)) =>
    if hexKeyCandidate v then assocUpd m name v else m
  | _ => m

/-- First pass of the direct scan over the whole program. -/
def collectPotentialKeyStrings (fuel : Nat) (prog : KProgram) :
    List (String × String) :=
  (allProgramNodes fuel prog).foldl collectKeyStringsStep []

/-- Second pass of the direct scan, per return statement: match
`<var>.split(..).reverse().join(..)` (property names checked via
`isMemberProperty`; the `reverse` call must have no arguments, and the
`split`/`join` arguments are *not* checked here), look the base variable up
in the collected map, reverse its value, and classify: hex of length 32/64
to `foundKeys`, hex of other length to `wrongLengthCandidates`, non-hex to
`nonHexCandidates` — all as plain strings.  The classification tail of the
handler: -/
def directScanClassify (reversedValue : String) (ls : ExtractionLists) :
    ExtractionLists :=
  if isHexStrPlus reversedValue then
    if reversedValue.length == 32 || reversedValue.length == 64 then
      { ls with foundKeys := ls.foundKeys ++ [.plainKey reversedValue] }
    else
      { ls with wrongLengthCandidates :=
          ls.wrongLengthCandidates ++ [.plainKey reversedValue] }
  else
    { ls with nonHexCandidates := ls.nonHexCandidates ++ [.plainKey reversedValue] }

/-- The pattern match of the direct scan's per-return handler. -/
def directScanReturn (strMap : List (String × String)) (arg : Option KExpr)
    (ls : ExtractionLists) : ExtractionLists :=
  match arg with
  | some (.callExpr joinCallee _) =>
    if isMemberProperty joinCallee "join" then
      match joinCallee with
      | .memberExpr (.callExpr reverseCallee reverseArgs) _ _ =>
        if reverseArgs.isEmpty && isMemberProperty reverseCallee "reverse" then
          match reverseCallee with
          | .memberExpr (.callExpr splitCallee _) _ _ =>
            if isMemberProperty splitCallee "split" then
              match splitCallee with
              | .memberExpr (.identifier varName) _ _ =>
                match assocGet strMap varName with
                | some originalValue =>
                  directScanClassify (strReverse originalValue) ls
                | none => ls
              | _ => ls
            else ls
          | _ => ls
        else ls
      | _ => ls
    else ls
  | _ => ls

/-- Second pass of the direct scan over the whole program. -/
def directScanPass2 (fuel : Nat) (strMap : List (String × String))
    (prog : KProgram) (ls : ExtractionLists) : ExtractionLists :=
  (allProgramNodes fuel prog).foldl
    (fun ls node =>
      match node with
      | .inl (.returnStmt arg) => directScanReturn strMap arg ls
      | _ => ls) ls

/-- `resolveReversedStringCall(callNode, path)` (lines 83-119): the strict
form of the reverse-chain match — `join('')` and `split('')` arguments are
required to be the empty string literal, `reverse()` must have no
arguments — with the base variable resolved through the scope/binding
facility (`findStringDeclarationValue`), which is an external collaborator
modelled as an oracle from names to their current string value; a falsy
(empty or absent) resolution yields `null`. -/
def resolveReversedStringCall (oracle : String → Option String)
    (callNode : KExpr) : Option String :=
  match callNode with
  | .callExpr joinCallee joinArgs =>
    match joinArgs.head? with
    | some (.stringLit "") =>
      if isMemberProperty joinCallee "join" then
        match joinCallee with
        | .memberExpr (.callExpr reverseCallee reverseArgs) _ _ =>
          if reverseArgs.isEmpty && isMemberProperty reverseCallee "reverse" then
            match reverseCallee with
            | .memberExpr (.callExpr splitCallee splitArgs) _ _ =>
              if isMemberProperty splitCallee "split" then
                match splitArgs.head? with
                | some (.stringLit "") =>
                  match splitCallee with
                  | .memberExpr (.identifier baseId) _ _ =>
                    match oracle baseId with
                    | some strVal =>
                      if strVal.data.isEmpty then none
                      else some (strReverse strVal)
                    | none => none
                  | _ => none
                | _ => none
              else none
            | _ => none
          else none
        | _ => none
      else none
    | _ => none
  | _ => none

/-- `resolveConditionalFunctionCall(funcNode, path)` (lines 122-151):
traverse the function body's return statements and resolve the first one
whose argument is a call matching the reverse-chain. -/
def resolveConditionalFunctionCall (fuel : Nat)
    (oracle : String → Option String) (body : KFuncBody) : Option String :=
  let bodyNodes :=
    match body with
    | .blockBody stmts => allNodesGo fuel (stmts.map .inl)
    | .exprBody e => allNodesGo fuel [.inr e]
  bodyNodes.foldl
    (fun acc node =>
      match acc with
      | some v => some v
      | none =>
        match node with
        | .inl (.returnStmt (some arg)) =>
          match arg with
          | .callExpr _ _ => resolveReversedStringCall oracle arg
          | _ => none
        | _ => none) none

/-- Third pass of the direct scan (lines 405-417): every variable
declarator whose initializer is a function expression or arrow function is
inspected with `resolveConditionalFunctionCall`; a resolved value is pushed
to `foundKeys` unvalidated. -/
def directScanPass3 (fuel : Nat) (oracle : String → Option String)
    (prog : KProgram) (ls : ExtractionLists) : ExtractionLists :=
  (allProgramNodes fuel prog).foldl
    (fun ls node =>
      match node with
      | .inl (.varDeclStmt ds) =>
        ds.foldl
          (fun ls d =>
            match d with
            | .declarator _ (some (.functionExpr _ _ body)) =>
              match resolveConditionalFunctionCall fuel oracle body with
              | some val => { ls with foundKeys := ls.foundKeys ++ [.plainKey val] }
              | none => ls
            | _ => ls) ls
      | _ => ls) ls

/-! ## Standard extraction, pass 1: object properties and aliases
(`keyExtractionPlugin.js`, lines 423-540) -/

/-- Store one object-literal property into a property bag: an
`ObjectProperty` stores its value node (`resolveFunctionToStringLiteral`
returns `null` for non-functions and functions are stored as nodes, so the
collected entry is always the value node itself), an `ObjectMethod` stores
the method node. -/
def storeObjectProp (props : List (String × KPropValue)) (p : KObjectProp) :
    List (String × KPropValue) :=
  match p with
  | .objectProp key value => assocUpd props key (.nodeVal value)
  | .objectMethod key params body => assocUpd props key (.methodVal params body)

/-- The object-property and alias collection state. -/
structure CollectState where
  objectPropertiesMap : List (String × List (String × KPropValue))
  aliasMap : List (String × String)

/-- Record a whole object literal (`a8 = { ... }` / `const a8 = { ... }`). -/
def collectObjectLiteral (st : CollectState) (objName : String)
    (props : List KObjectProp) : CollectState :=
  let bag := (assocGet st.objectPropertiesMap objName).getD []
  let bag := props.foldl storeObjectProp bag
  { st with objectPropertiesMap := assocUpd st.objectPropertiesMap objName bag }

/-- The `VariableDeclarator` and `ExpressionStatement` visitors of the
plugin's pass 1: object literals, property assignments
(`b3["b"] = ...` — stored as the assigned node), alias declarations
(`z = a8`) and alias assignments. -/
def collectObjectsAndAliases (fuel : Nat) (prog : KProgram) : CollectState :=
  (allProgramNodes fuel prog).foldl
    (fun st node =>
      match node with
      | .inl (.varDeclStmt ds) =>
        ds.foldl
          (fun st d =>
            match d with
            | .declarator name (some (.objectExpr props)) =>
              collectObjectLiteral st name props
            | .declarator name (some (.identifier originalName)) =>
              { st with aliasMap := assocUpd st.aliasMap name originalName }
            | _ => st) st
      | .inl (.exprStmt (.assignExpr left right)) =>
        match left, right with
        | .memberExpr (.identifier objName) _ prop, _ =>
          (match memberPropName prop with
           | some propName =>
             let bag := (assocGet st.objectPropertiesMap objName).getD []
             let bag := assocUpd bag propName (.nodeVal right)
             { st with objectPropertiesMap :=
                 assocUpd st.objectPropertiesMap objName bag }
           | none => st)
        | .identifier aliasName, .identifier originalName =>
          { st with aliasMap := assocUpd st.aliasMap aliasName originalName }
        | .identifier objName, .objectExpr props =>
          collectObjectLiteral st objName props
        | _, _ => st
      | _ => st) ⟨[], []⟩

/-- The post-processing merge (lines 530-540): for every alias name in
insertion order, resolve it through `resolveAlias`, copy its collected
properties over the original's (`Object.assign` overwrite) and delete the
alias's own entry. -/
def mergeAliasProps (st : CollectState) :
    List (String × List (String × KPropValue)) :=
  (st.aliasMap.map Prod.fst).foldl
    (fun objMap aliasName =>
      let originalName := resolveAlias st.aliasMap aliasName
      match assocGet objMap aliasName with
      | some aliasProps =>
        let origProps := (assocGet objMap originalName).getD []
        let merged := aliasProps.foldl
          (fun acc p => assocUpd acc p.1 p.2) origProps
        assocDel (assocUpd objMap originalName merged) aliasName
      | none => objMap) st.objectPropertiesMap

/-! ## Standard extraction, pass 2a: the array collector
(`collectors/arrayCollector.js`) -/

/-- `ArrayCollector`: record every identifier declared or assigned an array
literal (the array node itself; a later write overwrites). -/
def collectArrays (fuel : Nat) (prog : KProgram) : List (String × KExpr) :=
  (allProgramNodes fuel prog).foldl
    (fun arrays node =>
      match node with
      | .inl (.varDeclStmt ds) =>
        ds.foldl
          (fun arrays d =>
            match d with
            | .declarator name (some (.arrayExpr es)) =>
              assocUpd arrays name (.arrayExpr es)
            | _ => arrays) arrays
      | .inr (.assignExpr (.identifier name) (.arrayExpr es)) =>
        assocUpd arrays name (.arrayExpr es)
      | _ => arrays) []

/-! ## Standard extraction, pass 2b: the segment-function collector
(`collectors/segmentFunctionCollector.js`, src/unnamed/part_001) -/

/-- `extractReturnFromBlock(block)`: a direct `return "literal"` in a block
statement's top level, or the block being that return itself. -/
def extractReturnFromBlock : KStmt → Option String
  | .blockStmt body =>
    body.findSome? fun stmt =>
      match stmt with
      | .returnStmt (some (.stringLit v)) => some v
      | _ => none
  | .returnStmt (some (.stringLit v)) => some v
  | _ => none

/-- `extractReturnStringFromIfStatement(node)`: consequent first, then the
alternate, then else-if chains. -/
def extractReturnStringFromIfStatement : KStmt → Option String
  | .ifStmt _ consequent alternate =>
    match extractReturnFromBlock consequent with
    | some v => some v
    | none =>
      match alternate with
      | some alt =>
        match extractReturnFromBlock alt with
        | some v => some v
        | none => extractReturnStringFromIfStatement alt
      | none => none
  | _ => none

/-- `findDirectStringReturn(bodyStmts)`: first top-level string-literal
return, looking through top-level if-statements via
`extractReturnStringFromIfStatement`. -/
def findDirectStringReturn : List KStmt → Option String
  | [] => none
  | stmt :: rest =>
    match stmt with
    | .returnStmt (some (.stringLit v)) => some v
    | .ifStmt t c a =>
      (match extractReturnStringFromIfStatement (.ifStmt t c a) with
       | some v => some v
       | none => findDirectStringReturn rest)
    | _ => findDirectStringReturn rest

/-- `findStringReturnViaTraversal`: the first string-literal return
anywhere in the subtree (pre-order, stop at first). -/
def findAnyStringReturn (fuel : Nat) (body : List KStmt) : Option String :=
  (allNodesGo fuel (body.map .inl)).findSome? fun n =>
    match n with
    | .inl (.returnStmt (some (.stringLit v))) => some v
    | _ => none

/-- The segment-function collection state: the name-to-literal map and the
skipped set. -/
structure SegmentState where
  segmentFunctionsMap : List (String × String)
  skippedFunctions : List String

/-- `SegmentFunctionCollector.handleFunctionDeclaration`. -/
def segmentHandleFunctionDecl (fuel : Nat) (name : String)
    (body : List KStmt) (st : SegmentState) : SegmentState :=
  if (assocGet st.segmentFunctionsMap name).isSome ||
      st.skippedFunctions.contains name then st
  else
    match findDirectStringReturn body with
    | some v =>
      { st with segmentFunctionsMap := assocUpd st.segmentFunctionsMap name v }
    | none =>
      match findAnyStringReturn fuel body with
      | some v =>
        { st with segmentFunctionsMap := assocUpd st.segmentFunctionsMap name v }
      | none =>
        { st with skippedFunctions := st.skippedFunctions ++ [name] }

/-- `SegmentFunctionCollector.handleBlockBody` (shared by arrow functions
and function expressions with block bodies). -/
def segmentHandleBlockBody (fuel : Nat) (name : String) (body : List KStmt)
    (st : SegmentState) : SegmentState :=
  match findDirectStringReturn body with
  | some v =>
    { st with segmentFunctionsMap := assocUpd st.segmentFunctionsMap name v }
  | none =>
    match findAnyStringReturn fuel body with
    | some v =>
      { st with segmentFunctionsMap := assocUpd st.segmentFunctionsMap name v }
    | none =>
      { st with skippedFunctions := st.skippedFunctions ++ [name] }

/-- `SegmentFunctionCollector.handleVariableDeclarator`: arrow functions
with implicit string returns or block bodies, and function expressions. -/
def segmentHandleDeclarator (fuel : Nat) (d : KDeclarator)
    (st : SegmentState) : SegmentState :=
  match d with
  | .declarator name (some init) =>
    if (assocGet st.segmentFunctionsMap name).isSome ||
        st.skippedFunctions.contains name then st
    else
      match init with
      | .functionExpr true _ (.exprBody (.stringLit v)) =>
        { st with segmentFunctionsMap := assocUpd st.segmentFunctionsMap name v }
      | .functionExpr true _ (.blockBody b) => segmentHandleBlockBody fuel name b st
      | .functionExpr true _ (.exprBody _) => st
      | .functionExpr false _ (.blockBody b) => segmentHandleBlockBody fuel name b st
      | .functionExpr false _ (.exprBody _) => st
      | _ => st
  | .declarator _ none => st

/-- `SegmentFunctionCollector.handleVariableDeclarationWithAssignment`: a
single uninitialized declarator followed (later in the same parent body) by
an assignment of a function to the same name; an implicit string return or
a direct top-level string return is recorded (no if-statement descent, no
skip marking, no already-known guard). -/
def segmentHandleDeclThenAssign (ds : List KDeclarator)
    (followingSiblings : List KStmt) (st : SegmentState) : SegmentState :=
  match ds with
  | [.declarator varName none] =>
    let assigned : Option String := followingSiblings.findSome? fun stmt =>
      match stmt with
      | .exprStmt (.assignExpr (.identifier n) (.functionExpr _ _ body)) =>
        if n == varName then
          match body with
          | .exprBody (.stringLit v) => some v
          | .blockBody stmts =>
            stmts.findSome? fun bodyStmt =>
              match bodyStmt with
              | .returnStmt (some (.stringLit v)) => some v
              | _ => none
          | _ => none
        else none
      | _ => none
    match assigned with
    | some v =>
      { st with segmentFunctionsMap := assocUpd st.segmentFunctionsMap varName v }
    | none => st
  | _ => st

mutual
/-- Walk one statement list: fire the collector's visitors on each
statement (the `VariableDeclaration` sibling-scan sees the following
statements of the same list), then descend into its children. -/
def segmentCollectStmtList : Nat → List KStmt → SegmentState → SegmentState
  | 0, _, st => st
  | _, [], st => st
  | fuel + 1, stmt :: rest, st =>
    let st :=
      match stmt with
      | .functionDecl name _ body => segmentHandleFunctionDecl fuel name body st
      | .varDeclStmt ds =>
        let st := segmentHandleDeclThenAssign ds rest st
        ds.foldl (fun st d => segmentHandleDeclarator fuel d st) st
      | _ => st
    let st := segmentCollectStmtChildren fuel stmt st
    segmentCollectStmtList fuel rest st

/-- Descend into the statement's nested statement lists and expressions. -/
def segmentCollectStmtChildren : Nat → KStmt → SegmentState → SegmentState
  | 0, _, st => st
  | fuel + 1, stmt, st =>
    match stmt with
    | .varDeclStmt ds =>
      ds.foldl
        (fun st d =>
          match d with
          | .declarator _ (some e) => segmentCollectExpr fuel e st
          | _ => st) st
    | .exprStmt e => segmentCollectExpr fuel e st
    | .returnStmt (some e) => segmentCollectExpr fuel e st
    | .returnStmt none => st
    | .ifStmt t c a =>
      let st := segmentCollectExpr fuel t st
      let st := segmentCollectStmtList fuel [c] st
      (match a with
       | some s' => segmentCollectStmtList fuel [s'] st
       | none => st)
    | .blockStmt body => segmentCollectStmtList fuel body st
    | .functionDecl _ _ body => segmentCollectStmtList fuel body st
    | .otherStmt _ => st

/-- Descend into an expression's nested function bodies. -/
def segmentCollectExpr : Nat → KExpr → SegmentState → SegmentState
  | 0, _, st => st
  | fuel + 1, e, st =>
    match e with
    | .arrayExpr es => es.foldl (fun st e' => segmentCollectExpr fuel e' st) st
    | .memberExpr o _ p =>
      segmentCollectExpr fuel p (segmentCollectExpr fuel o st)
    | .callExpr c args =>
      args.foldl (fun st a => segmentCollectExpr fuel a st)
        (segmentCollectExpr fuel c st)
    | .spreadElement a => segmentCollectExpr fuel a st
    | .binaryExpr _ l r =>
      segmentCollectExpr fuel r (segmentCollectExpr fuel l st)
    | .functionExpr _ _ (.exprBody b) => segmentCollectExpr fuel b st
    | .functionExpr _ _ (.blockBody body) => segmentCollectStmtList fuel body st
    | .objectExpr props =>
      props.foldl
        (fun st p =>
          match p with
          | .objectProp _ v => segmentCollectExpr fuel v st
          | .objectMethod _ _ body => segmentCollectStmtList fuel body st) st
    | .assignExpr l r =>
      segmentCollectExpr fuel r (segmentCollectExpr fuel l st)
    | _ => st
end

/-- The whole segment-function collection pass. -/
def collectSegmentFunctions (fuel : Nat) (prog : KProgram) : SegmentState :=
  segmentCollectStmtList fuel prog ⟨[], []⟩

/-! ## Standard extraction, pass 3: the array-join extractor's
CallExpression handler (src/unnamed/part_002) -/

/-- Is the node a numeric literal. -/
def isNumericLitB : KExpr → Bool
  | .numericLit _ => true
  | _ => false

/-- Is the node a string literal. -/
def isStringLitB : KExpr → Bool
  | .stringLit _ => true
  | _ => false

/-- `String.fromCharCode(...codes)` over numeric-literal elements. -/
def charCodesToString (elems : List KExpr) : String :=
  ⟨elems.map fun el =>
    match el with
    | .numericLit n => jsFromCharCode n
    | _ => jsFromCharCode 0⟩

/-- The string-literal values of an all-string-literal element list,
joined with `''`. -/
def joinStringLitValues (elems : List KExpr) : String :=
  String.join (elems.map fun el =>
    match el with
    | .stringLit v => v
    | _ => "")

/-- The fromCharCode callee detection of `handleFromCharCode` (lines
82-106): `String.fromCharCode`, any `obj.fromCharCode` (also via computed
string properties `"fromCharCode"` or `""`), or a bare `fromCharCode`
identifier; returns the debug callee name. -/
def isFromCharCodeCallee : KExpr → Option String
  | .memberExpr obj _ prop =>
    let propMatches :=
      match prop with
      | .identifier "fromCharCode" => true
      | .stringLit "fromCharCode" => true
      | .stringLit "" => true
      | _ => false
    if propMatches then
      match obj with
      | .identifier "String" => some "String.fromCharCode"
      | _ => some "obj.fromCharCode"
    else none
  | .identifier "fromCharCode" => some "fromCharCode"
  | _ => none

/-- `handleFromCharCode` with its two argument shapes: a single spread of a
collected all-numeric array, or all-numeric direct arguments; both are
classified by `categorizeFromCharCodeResult`. -/
def handleFromCharCode (arrays : List (String × KExpr)) (callee : KExpr)
    (args : List KExpr) (ls : ExtractionLists) : ExtractionLists :=
  match isFromCharCodeCallee callee with
  | none => ls
  | some calleeName =>
    match args with
    | [.spreadElement spreadArgument] =>
      match spreadArgument with
      | .identifier spreadName =>
        (match assocGet arrays spreadName with
         | some (.arrayExpr elems) =>
           if elems.all isNumericLitB then
             categorizeFromCharCodeResult (charCodesToString elems) spreadName
               "fromCharCode_array" ls
           else ls
         | _ => ls)
      | _ => ls
    | _ =>
      if !args.isEmpty && args.all isNumericLitB then
        categorizeFromCharCodeResult (charCodesToString args) calleeName
          "fromCharCode_args" ls
      else ls

/-- `join` property detection as `handleIndexedArrayMapping` and
`handleDirectArrayJoins` perform it (identifier or string literal,
computed or not). -/
def isJoinProp : KExpr → Bool
  | .identifier "join" => true
  | .stringLit "join" => true
  | _ => false

/-- `map` property detection. -/
def isMapProp : KExpr → Bool
  | .identifier "map" => true
  | .stringLit "map" => true
  | _ => false

/-- The return statements belonging directly to a function body (babel's
`returnPath.getFunctionParent() === mapCallbackPath` guard): descend into
blocks and if-statements but not into nested functions. -/
def directFunctionReturns : Nat → List KStmt → List (Option KExpr)
  | 0, _ => []
  | _, [] => []
  | fuel + 1, stmt :: rest =>
    (match stmt with
     | .returnStmt a => [a]
     | .ifStmt _ c alt =>
       directFunctionReturns fuel [c] ++
         (match alt with
          | some s' => directFunctionReturns fuel [s']
          | none => [])
     | .blockStmt b => directFunctionReturns fuel b
     | _ => []) ++ directFunctionReturns fuel rest

/-- The first member expression `src[param]` among the strict descendants
of an expression (`path.traverse` does not visit the root node; the
`computed` flag is not checked). -/
def firstParamMemberIn (fuel : Nat) (paramName : String) (e : KExpr) :
    Option String :=
  (allNodesGo fuel (subNodes (.inr e))).findSome? fun n =>
    match n with
    | .inr (.memberExpr (.identifier src) _ (.identifier p)) =>
      if p == paramName then some src else none
    | _ => none

/-- `ArrayJoinExtractor.extractSourceArrayName`: for a block body, search
the arguments of the callback's own return statements; for an implicit
body, search the body expression. -/
def extractSourceArrayName (fuel : Nat) (body : KFuncBody)
    (paramName : String) : Option String :=
  match body with
  | .blockBody b =>
    (directFunctionReturns fuel b).findSome? fun argOpt =>
      match argOpt with
      | some arg => firstParamMemberIn fuel paramName arg
      | none => none
  | .exprBody e => firstParamMemberIn fuel paramName e

/-- `handleIndexedArrayMapping` / `processIndexedMapping`: the pattern
`indices.map(cb).join('')` with a one-parameter callback whose body reads
`source[param]`; both arrays must have been collected, and the gathering
itself is `processArrayMapping`. -/
def handleIndexedArrayMapping (arrays : List (String × KExpr)) (fuel : Nat)
    (callee : KExpr) (args : List KExpr) (ls : ExtractionLists) :
    ExtractionLists :=
  match callee with
  | .memberExpr joinObject _ prop =>
    if isJoinProp prop then
      match args with
      | [.stringLit ""] =>
        (match joinObject with
         | .callExpr (.memberExpr (.identifier indexArrayName) _ mapProp) mapArgs =>
           if isMapProp mapProp && mapArgs.length == 1 then
             match mapArgs.head? with
             | some (.functionExpr _ [paramName] body) =>
               (match extractSourceArrayName fuel body paramName with
                | some sourceArrayName =>
                  if (assocGet arrays indexArrayName).isSome &&
                      (assocGet arrays sourceArrayName).isSome then
                    processArrayMapping arrays indexArrayName sourceArrayName ls
                  else ls
                | none => ls)
             | _ => ls
           else ls
         | _ => ls)
      | _ => ls
    else ls
  | _ => ls

/-- `handleArrayMapJoin`: the `.map(t => String.fromCharCode(parseInt(t,
16)))` chain over an all-string-literal array, with a fallback that treats
the map as identity-like and joins the literal values. -/
def handleArrayMapJoin (arrays : List (String × KExpr)) (fuel : Nat)
    (sourceName : String) (mapArgs : List KExpr) (ls : ExtractionLists) :
    ExtractionLists :=
  match assocGet arrays sourceName with
  | some (.arrayExpr elems) =>
    let parseIntPattern : Bool :=
      match mapArgs.head? with
      | some (.functionExpr _ [mapParam] body) =>
        let returnedValueNode : Option KExpr :=
          match body with
          | .blockBody b => ((directFunctionReturns fuel b).getLast?).bind id
          | .exprBody e => some e
        (match returnedValueNode with
         | some (.callExpr (.memberExpr _ _ fcProp) fcArgs) =>
           (match fcProp with
            | .identifier "fromCharCode" => true
            | .stringLit "fromCharCode" => true
            | _ => false) &&
           (match fcArgs with
            | [.callExpr _ parseIntArgs] =>
              (match parseIntArgs with
               | [.identifier a0, .numericLit n1] => a0 == mapParam && n1 == 16
               | _ => false)
            | _ => false)
         | _ => false)
      | _ => false
    if parseIntPattern && elems.all isStringLitB then
      let derivedKey : String :=
        ⟨elems.map fun el =>
          match el with
          | .stringLit v => jsFromCharCode ((parseIntBase16 v).getD 0)
          | _ => jsFromCharCode 0⟩
      (categorizeValidationResult
        (some (validateKey derivedKey sourceName "array_map_charcode_parseint"))
        ls).1
    else
      if elems.all isStringLitB then
        (categorizeValidationResult
          (some (validateKey (joinStringLitValues elems) sourceName
            "array_map_join")) ls).1
      else ls
  | _ => ls

/-- `handleDirectArrayJoin`: `arrayIdentifier.join('')` over a collected
all-string-literal array. -/
def handleDirectArrayJoin (arrays : List (String × KExpr))
    (sourceName : String) (ls : ExtractionLists) : ExtractionLists :=
  match assocGet arrays sourceName with
  | some (.arrayExpr elems) =>
    if elems.all isStringLitB then
      (categorizeValidationResult
        (some (validateKey (joinStringLitValues elems) sourceName
          "direct_array_join")) ls).1
    else ls
  | _ => ls

/-- `handleDirectArrayJoins`: the `.join('')` (or argumentless `.join()`)
dispatcher over the map-join and direct-join shapes. -/
def handleDirectArrayJoins (arrays : List (String × KExpr)) (fuel : Nat)
    (callee : KExpr) (args : List KExpr) (ls : ExtractionLists) :
    ExtractionLists :=
  match callee with
  | .memberExpr joinObject _ prop =>
    if isJoinProp prop &&
        (args.isEmpty ||
          (match args with | [.stringLit ""] => true | _ => false)) then
      match joinObject with
      | .callExpr (.memberExpr (.identifier sourceName) _ mapProp) mapArgs =>
        if isMapProp mapProp then handleArrayMapJoin arrays fuel sourceName mapArgs ls
        else ls
      | .identifier sourceName => handleDirectArrayJoin arrays sourceName ls
      | _ => ls
    else ls
  | _ => ls

/-- `ArrayJoinExtractor.createCallExpressionHandler`: the three
sub-handlers run in sequence on every call expression. -/
def arrayJoinCallHandler (arrays : List (String × KExpr)) (fuel : Nat)
    (callee : KExpr) (args : List KExpr) (ls : ExtractionLists) :
    ExtractionLists :=
  let ls := handleFromCharCode arrays callee args ls
  let ls := handleIndexedArrayMapping arrays fuel callee args ls
  handleDirectArrayJoins arrays fuel callee args ls

/-! ## Standard extraction, pass 3: the function-key extractor visitors
(`functionKeyExtractor.js`) -/

/-- Process every return statement of an assembler-function body through
`deriveAndValidate` and `handleExtractionResult`. -/
def fkeReturnSitesFold (tb : ConcatTables) (fuel : Nat) (funcName : String)
    (body : List KStmt) (ls : ExtractionLists) : ExtractionLists :=
  (allNodesGo fuel (body.map .inl)).foldl
    (fun ls n =>
      match n with
      | .inl (.returnStmt arg) =>
        handleExtractionResult (deriveAndValidate tb fuel arg funcName) ls
      | _ => ls) ls

/-- The `FunctionDeclaration` / `VariableDeclarator` /
`AssignmentExpression` visitors of `FunctionKeyExtractor.createVisitors`,
applied to one node. -/
def fkeHandleNode (tb : ConcatTables) (fuel : Nat) (node : KNode)
    (ls : ExtractionLists) : ExtractionLists :=
  match node with
  | .inl (.functionDecl name _ body) => fkeReturnSitesFold tb fuel name body ls
  | .inl (.varDeclStmt ds) =>
    ds.foldl
      (fun ls d =>
        match d with
        | .declarator varName (some (.functionExpr _ _ (.blockBody b))) =>
          fkeReturnSitesFold tb fuel varName b ls
        | .declarator varName (some (.functionExpr _ _ (.exprBody e))) =>
          handleExtractionResult (deriveAndValidate tb fuel (some e) varName) ls
        | _ => ls) ls
  | .inr (.assignExpr (.identifier funcName) (.functionExpr _ _ fb)) =>
    (match fb with
     | .blockBody b => fkeReturnSitesFold tb fuel funcName b ls
     | .exprBody e =>
       handleExtractionResult (deriveAndValidate tb fuel (some e) funcName) ls)
  | _ => ls

/-- The extractor's `BlockStatement` enter handler: re-traverse the block
and run the three handlers on everything inside it (a deliberate second
visit of nested declarations). -/
def fkeBlockHandler (tb : ConcatTables) (fuel : Nat) (body : List KStmt)
    (ls : ExtractionLists) : ExtractionLists :=
  (allNodesGo fuel (body.map .inl)).foldl
    (fun ls n => fkeHandleNode tb fuel n ls) ls

/-! ## Standard extraction: the two extractor modules missing from src/ -/

/-- Modelled from the spec: `extractors/fromCharCodeExtractor.js` is not
under src/ (only its importer is).  Per spec §4.7 the char-code extractor
recognizes `String.fromCharCode(...)` with a spread of a literal numeric
array or with direct numeric literal arguments, converts the codes to
characters, and passes the string to the §3 validator. -/
def fromCharCodeExtractorSpec (arrays : List (String × KExpr)) (node : KNode)
    (ls : ExtractionLists) : ExtractionLists :=
  match node with
  | .inr (.callExpr callee args) =>
    (match isFromCharCodeCallee callee with
     | some calleeName =>
       (match args with
        | [.spreadElement (.identifier name)] =>
          (match assocGet arrays name with
           | some (.arrayExpr elems) =>
             if elems.all isNumericLitB then
               (categorizeValidationResult
                 (some (validateKey (charCodesToString elems) name
                   "fromCharCode_spec")) ls).1
             else ls
           | _ => ls)
        | _ =>
          if !args.isEmpty && args.all isNumericLitB then
            (categorizeValidationResult
              (some (validateKey (charCodesToString args) calleeName
                "fromCharCode_spec")) ls).1
          else ls)
     | none => ls)
  | _ => ls

/-- Modelled from the spec: collection backing the reversed/sliced-string
extractor, whose file `extractors/sliceExtractor.js` is not under src/.
Per spec §4.7 it applies to "a previously assigned hex-looking string
literal": every identifier declared or assigned a nonempty hex string
literal. -/
def collectHexLookingStrings (fuel : Nat) (prog : KProgram) :
    List (String × String) :=
  (allProgramNodes fuel prog).foldl
    (fun m node =>
      match node with
      | .inl (.varDeclStmt ds) =>
        ds.foldl
          (fun m d =>
            match d with
            | .declarator name (some (.stringLit v)) =>
              if isHexStrPlus v then assocUpd m name v else m
            | _ => m) m
      | .inr (.assignExpr (.identifier name) (.stringLit v)) =>
        if isHexStrPlus v then assocUpd m name v else m
      | _ => m) []

/-- Modelled from the spec: `extractors/sliceExtractor.js` is not under
src/.  Per spec §4.7 the reversed-string extractor recognizes
`identifier.split('').reverse().join('')` applied to a previously assigned
hex-looking string literal, produces the reversed string and passes it to
the §3 validator. -/
def sliceExtractorSpec (hexVars : List (String × String)) (node : KNode)
    (ls : ExtractionLists) : ExtractionLists :=
  match node with
  | .inl (.returnStmt (some (.callExpr joinCallee [.stringLit ""]))) =>
    if isMemberProperty joinCallee "join" then
      match joinCallee with
      | .memberExpr (.callExpr reverseCallee []) _ _ =>
        if isMemberProperty reverseCallee "reverse" then
          match reverseCallee with
          | .memberExpr (.callExpr splitCallee [.stringLit ""]) _ _ =>
            if isMemberProperty splitCallee "split" then
              match splitCallee with
              | .memberExpr (.identifier baseId) _ _ =>
                (match assocGet hexVars baseId with
                 | some v =>
                   (categorizeValidationResult
                     (some (validateKey (strReverse v) baseId
                       "reversed_string_spec")) ls).1
                 | none => ls)
              | _ => ls
            else ls
          | _ => ls
        else ls
      | _ => ls
    else ls
  | _ => ls

/-! ## The plugin's Program visitor (`findAndExtractKeyPlugin`) — claims
C2, C9, C10 -/

/-- The standard extraction (the body of the
`if (foundKeys.length === 0)` branch): collect object properties and
aliases (then merge aliased objects), arrays and segment functions, and
run the merged extraction visitors over one traversal. -/
def standardExtraction (fuel : Nat) (prog : KProgram) (ls : ExtractionLists) :
    ExtractionLists :=
  let st := collectObjectsAndAliases fuel prog
  let objMap := mergeAliasProps st
  let arrays := collectArrays fuel prog
  let seg := collectSegmentFunctions fuel prog
  let tb : ConcatTables := ⟨seg.segmentFunctionsMap, objMap, st.aliasMap⟩
  let hexVars := collectHexLookingStrings fuel prog
  (allProgramNodes fuel prog).foldl
    (fun ls node =>
      let ls :=
        match node with
        | .inr (.callExpr callee args) => arrayJoinCallHandler arrays fuel callee args ls
        | _ => ls
      let ls := fkeHandleNode tb fuel node ls
      let ls :=
        match node with
        | .inl (.blockStmt body) => fkeBlockHandler tb fuel body ls
        | _ => ls
      let ls := fromCharCodeExtractorSpec arrays node ls
      sliceExtractorSpec hexVars node ls) ls

/-- The three direct-scan passes in order. -/
def directScanAll (fuel : Nat) (oracle : String → Option String)
    (prog : KProgram) : ExtractionLists :=
  let strMap := collectPotentialKeyStrings fuel prog
  let ls := directScanPass2 fuel strMap prog emptyLists
  directScanPass3 fuel oracle prog ls

/-- The outcome of the plugin's Program visitor: the three candidate lists
and whether the standard extraction branch was taken (the `else` branch
logs "skipping standard extraction"). -/
structure PluginOutcome where
  lists : ExtractionLists
  standardExtractionRan : Bool
deriving DecidableEq, Repr

/-- `findAndExtractKeyPlugin`'s Program visitor: run the direct scan
(passes 1-3); the standard extraction — collectors plus all extractor
visitors — runs only when the direct scan produced no found key
(`if (foundKeys.length === 0)`), with `FIND_ALL_CANDIDATES = true`. -/
def findAndExtractKey (oracle : String → Option String) (fuel : Nat)
    (prog : KProgram) : PluginOutcome :=
  let ls := directScanAll fuel oracle prog
  if ls.foundKeys.length == 0 then
    { lists := standardExtraction fuel prog ls, standardExtractionRan := true }
  else
    { lists := ls, standardExtractionRan := false }

/-- A 32-character hex string literal for the direct scan to find. -/
def hex32sample : String := "0123456789abcdef0123456789abcdef"

/-- A program with both a reversed-string key (found by the direct scan)
and a direct array-join key (found only by the standard extraction):
`var j = "0123...def"; function getKey() { return
j.split('').reverse().join(''); } var K = ["00112233aabbccdd"];
K.join('');`. -/
def c2Program : KProgram := [
  .varDeclStmt [.declarator "j" (some (.stringLit hex32sample))],
  .functionDecl "getKey" [] [
    .returnStmt (some (.callExpr
      (.memberExpr
        (.callExpr
          (.memberExpr
            (.callExpr (.memberExpr (.identifier "j") false (.identifier "split"))
              [.stringLit ""])
            false (.identifier "reverse"))
          [])
        false (.identifier "join"))
      [.stringLit ""]))],
  .varDeclStmt [.declarator "K" (some (.arrayExpr [.stringLit "00112233aabbccdd"]))],
  .exprStmt (.callExpr (.memberExpr (.identifier "K") false (.identifier "join"))
    [.stringLit ""])]

set_option maxRecDepth 10000

/-- C2 counterexample: the claim says the extractor traversals are never
skipped because an earlier scan already produced a found key.  On
`c2Program` the direct scan finds the reversed key, the plugin takes the
`else` branch ("skipping standard extraction"), and the valid
direct-array-join key `"00112233aabbccdd"` — which the skipped standard
extraction does produce — is absent from the final found list. -/
theorem C2_counterexample :
    (findAndExtractKey (fun _ => none) 100 c2Program).standardExtractionRan = false ∧
    (findAndExtractKey (fun _ => none) 100 c2Program).lists.foundKeys =
      [.plainKey (strReverse hex32sample)] ∧
    keyExists (standardExtraction 100 c2Program
        (directScanAll 100 (fun _ => none) c2Program)).foundKeys
      "00112233aabbccdd" "direct_array_join" = true ∧
    keyExists (findAndExtractKey (fun _ => none) 100 c2Program).lists.foundKeys
      "00112233aabbccdd" "direct_array_join" = false := by
  decide

/-- C2 (amended): the standard extraction — the array-join, char-code,
concatenated-function and reversed-string extractor traversals — runs
exactly when the direct scan produced no found key; when the direct scan
found keys the plugin returns the direct-scan lists unchanged and every
standard extractor is skipped.  (Within the standard extraction,
`FIND_ALL_CANDIDATES = true` and no handler stops at the first hit.) -/
theorem C2_extraction_gate (oracle : String → Option String) (fuel : Nat)
    (prog : KProgram) :
    ((findAndExtractKey oracle fuel prog).standardExtractionRan = true ↔
      (directScanAll fuel oracle prog).foundKeys = []) ∧
    ((directScanAll fuel oracle prog).foundKeys = [] →
      (findAndExtractKey oracle fuel prog).lists =
        standardExtraction fuel prog (directScanAll fuel oracle prog)) ∧
    ((directScanAll fuel oracle prog).foundKeys ≠ [] →
      (findAndExtractKey oracle fuel prog).lists =
        directScanAll fuel oracle prog) := by
  by_cases h : (directScanAll fuel oracle prog).foundKeys = []
  · simp [findAndExtractKey, h]
  · have hlen : ((directScanAll fuel oracle prog).foundKeys.length == 0) = false := by
      simp only [beq_eq_false_iff_ne, ne_eq]
      simpa [List.length_eq_zero] using h
    simp [findAndExtractKey, hlen, h]

/-- Witness for `C2_extraction_gate` on `c2Program`, whose direct scan
finds a key: the plugin's result is the direct-scan lists. -/
theorem C2_extraction_gate_witness :
    (findAndExtractKey (fun _ => none) 100 c2Program).lists =
      directScanAll 100 (fun _ => none) c2Program :=
  (C2_extraction_gate (fun _ => none) 100 c2Program).2.2 (by decide)

/-! ## Claim C9: the key-extraction stage never mutates the tree

Babel visitors may replace or remove the node they visit; a pass's tree
effect is captured by per-node rewrite functions (`some` = replacement,
`none` = leave the node).  The rewritten tree is rebuilt top-down. -/

mutual
/-- Rebuild a statement, applying a statement rewrite `fs` and an
expression rewrite `fe` top-down. -/
def applyRewriteStmt (fs : KStmt → Option KStmt) (fe : KExpr → Option KExpr) :
    Nat → KStmt → KStmt
  | 0, s => s
  | fuel + 1, s =>
    match fs s with
    | some s' => s'
    | none =>
      match s with
      | .varDeclStmt ds =>
        .varDeclStmt (ds.map fun d =>
          match d with
          | .declarator nm ini =>
            .declarator nm (ini.map (applyRewriteExpr fs fe fuel)))
      | .exprStmt e => .exprStmt (applyRewriteExpr fs fe fuel e)
      | .returnStmt a => .returnStmt (a.map (applyRewriteExpr fs fe fuel))
      | .ifStmt t c alt =>
        .ifStmt (applyRewriteExpr fs fe fuel t) (applyRewriteStmt fs fe fuel c)
          (alt.map (applyRewriteStmt fs fe fuel))
      | .blockStmt body => .blockStmt (body.map (applyRewriteStmt fs fe fuel))
      | .functionDecl n p body =>
        .functionDecl n p (body.map (applyRewriteStmt fs fe fuel))
      | .otherStmt t => .otherStmt t

/-- Rebuild an expression, applying the rewrites top-down. -/
def applyRewriteExpr (fs : KStmt → Option KStmt) (fe : KExpr → Option KExpr) :
    Nat → KExpr → KExpr
  | 0, e => e
  | fuel + 1, e =>
    match fe e with
    | some e' => e'
    | none =>
      match e with
      | .stringLit v => .stringLit v
      | .numericLit n => .numericLit n
      | .identifier n => .identifier n
      | .arrayExpr es => .arrayExpr (es.map (applyRewriteExpr fs fe fuel))
      | .memberExpr o c p =>
        .memberExpr (applyRewriteExpr fs fe fuel o) c (applyRewriteExpr fs fe fuel p)
      | .callExpr c args =>
        .callExpr (applyRewriteExpr fs fe fuel c) (args.map (applyRewriteExpr fs fe fuel))
      | .spreadElement a => .spreadElement (applyRewriteExpr fs fe fuel a)
      | .binaryExpr op l r =>
        .binaryExpr op (applyRewriteExpr fs fe fuel l) (applyRewriteExpr fs fe fuel r)
      | .functionExpr arrow ps (.exprBody b) =>
        .functionExpr arrow ps (.exprBody (applyRewriteExpr fs fe fuel b))
      | .functionExpr arrow ps (.blockBody body) =>
        .functionExpr arrow ps (.blockBody (body.map (applyRewriteStmt fs fe fuel)))
      | .objectExpr props =>
        .objectExpr (props.map fun pr =>
          match pr with
          | .objectProp k v => .objectProp k (applyRewriteExpr fs fe fuel v)
          | .objectMethod k ps b =>
            .objectMethod k ps (b.map (applyRewriteStmt fs fe fuel)))
      | .assignExpr l r =>
        .assignExpr (applyRewriteExpr fs fe fuel l) (applyRewriteExpr fs fe fuel r)
      | .otherExpr t => .otherExpr t
end

/-- Tree effect of the key-extraction plugin's statement visitors
(the direct scan's `VariableDeclarator`/`AssignmentExpression`/
`ReturnStatement` handlers, both collectors, the segment and object
collectors, and the extractor visitors): every handler only reads the node
and appends to the candidate lists or the lookup tables; none calls
`replaceWith`/`replaceWithMultiple`/`remove` or assigns to node fields, so
no statement is ever replaced. -/
def keyExtractionStmtRewrite : KStmt → Option KStmt := fun _ => none

/-- Tree effect of the plugin's expression visitors — likewise pure
reads. -/
def keyExtractionExprRewrite : KExpr → Option KExpr := fun _ => none

/-- The tree the key-extraction plugin's Program visitor leaves behind. -/
def keyExtractionPassTree (fuel : Nat) (prog : KProgram) : KProgram :=
  prog.map (applyRewriteStmt keyExtractionStmtRewrite keyExtractionExprRewrite fuel)

/-- Applying only `none` rewrites rebuilds the same tree. -/
theorem applyRewrite_none_id : ∀ fuel : Nat,
    (∀ s, applyRewriteStmt (fun _ => none) (fun _ => none) fuel s = s) ∧
    (∀ e, applyRewriteExpr (fun _ => none) (fun _ => none) fuel e = e) := by
  intro fuel
  induction fuel with
  | zero => exact ⟨fun _ => rfl, fun _ => rfl⟩
  | succ fuel ih =>
    obtain ⟨ihs, ihe⟩ := ih
    have hmapS : ∀ body : List KStmt,
        body.map (applyRewriteStmt (fun _ => none) (fun _ => none) fuel) = body :=
      fun body => by
        rw [show body.map (applyRewriteStmt (fun _ => none) (fun _ => none) fuel)
            = body.map id from List.map_congr_left fun s _ => ihs s, List.map_id]
    have hmapE : ∀ es : List KExpr,
        es.map (applyRewriteExpr (fun _ => none) (fun _ => none) fuel) = es :=
      fun es => by
        rw [show es.map (applyRewriteExpr (fun _ => none) (fun _ => none) fuel)
            = es.map id from List.map_congr_left fun e _ => ihe e, List.map_id]
    constructor
    · intro s
      cases s with
      | varDeclStmt ds =>
        simp only [applyRewriteStmt]
        congr 1
        rw [show (ds.map fun d =>
            match d with
            | KDeclarator.declarator nm ini =>
              KDeclarator.declarator nm
                (ini.map (applyRewriteExpr (fun _ => none) (fun _ => none) fuel)))
            = ds.map id from List.map_congr_left ?_, List.map_id]
        intro d _
        cases d with
        | declarator nm ini => cases ini <;> simp [ihe]
      | exprStmt e => simp [applyRewriteStmt, ihe]
      | returnStmt a => cases a <;> simp [applyRewriteStmt, ihe]
      | ifStmt t c alt => cases alt <;> simp [applyRewriteStmt, ihs, ihe]
      | blockStmt body => simp [applyRewriteStmt, hmapS]
      | functionDecl n p body => simp [applyRewriteStmt, hmapS]
      | otherStmt t => simp [applyRewriteStmt]
    · intro e
      cases e with
      | stringLit v => simp [applyRewriteExpr]
      | numericLit n => simp [applyRewriteExpr]
      | identifier n => simp [applyRewriteExpr]
      | arrayExpr es => simp [applyRewriteExpr, hmapE]
      | memberExpr o c p => simp [applyRewriteExpr, ihe]
      | callExpr c args => simp [applyRewriteExpr, ihe, hmapE]
      | spreadElement a => simp [applyRewriteExpr, ihe]
      | binaryExpr op l r => simp [applyRewriteExpr, ihe]
      | functionExpr arrow ps body =>
        cases body <;> simp [applyRewriteExpr, ihe, hmapS]
      | objectExpr props =>
        simp only [applyRewriteExpr]
        congr 1
        rw [show (props.map fun pr =>
            match pr with
            | KObjectProp.objectProp k v =>
              KObjectProp.objectProp k
                (applyRewriteExpr (fun _ => none) (fun _ => none) fuel v)
            | KObjectProp.objectMethod k ps b =>
              KObjectProp.objectMethod k ps
                (b.map (applyRewriteStmt (fun _ => none) (fun _ => none) fuel)))
            = props.map id from List.map_congr_left ?_, List.map_id]
        intro pr _
        cases pr <;> simp [ihe, hmapS]
      | assignExpr l r => simp [applyRewriteExpr, ihe]
      | otherExpr t => simp [applyRewriteExpr]

/-- C9: the key-extraction stage never mutates the program tree — for
every fuel and input program, the tree after the plugin's Program visitor
is the tree it received, because every collector and extractor visitor
only reads nodes and appends to the candidate lists. -/
theorem C9_extraction_never_mutates (fuel : Nat) (prog : KProgram) :
    keyExtractionPassTree fuel prog = prog := by
  unfold keyExtractionPassTree keyExtractionStmtRewrite keyExtractionExprRewrite
  rw [show prog.map (applyRewriteStmt (fun _ => none) (fun _ => none) fuel)
      = prog.map id from
    List.map_congr_left fun s _ => (applyRewrite_none_id fuel).1 s, List.map_id]

/-! ## Claim C10: the direct reversed-string scan's failure branches -/

/-- A successful association-list read pins an entry of the list. -/
theorem assocGet_mem {α : Type} {m : List (String × α)} {k : String} {v : α}
    (h : assocGet m k = some v) : (k, v) ∈ m := by
  unfold assocGet at h
  cases hf : m.find? fun p => p.1 == k with
  | none => rw [hf] at h; simp at h
  | some p =>
    rw [hf] at h
    simp at h
    have hp := List.find?_some hf
    have hmem := List.mem_of_find?_eq_some hf
    have h1 : p.1 = k := by simpa using hp
    have : p = (k, v) := by
      cases p
      simp_all
    rwa [this] at hmem

/-- `assocUpd` preserves a predicate on entries when the written entry
satisfies it. -/
theorem assocUpd_forall {α : Type} {P : String × α → Prop}
    {m : List (String × α)} {k : String} {v : α}
    (hm : ∀ p ∈ m, P p) (hv : P (k, v)) :
    ∀ p ∈ assocUpd m k v, P p := by
  intro p hp
  unfold assocUpd at hp
  by_cases hc : (m.any fun p => p.1 == k) = true
  · rw [if_pos hc] at hp
    obtain ⟨q, hq, hpq⟩ := List.mem_map.mp hp
    by_cases hqk : (q.1 == k) = true
    · rw [if_pos hqk] at hpq
      exact hpq ▸ hv
    · rw [if_neg hqk] at hpq
      exact hpq ▸ hm q hq
  · rw [if_neg hc] at hp
    rcases List.mem_append.mp hp with h | h
    · exact hm p h
    · simp at h
      exact h ▸ hv

/-- A left fold preserves any invariant its step preserves. -/
theorem foldl_preserves {α β : Type} {f : β → α → β} {P : β → Prop}
    (hstep : ∀ b a, P b → P (f b a)) :
    ∀ (l : List α) (b : β), P b → P (l.foldl f b) := by
  intro l
  induction l with
  | nil => intro b hb; simpa
  | cons a rest ih => intro b hb; exact ih _ (hstep b a hb)

/-- One step of the first collection pass only ever records strings
passing the hex-32/64 filter. -/
theorem collectKeyStringsStep_spec (m : List (String × String)) (node : KNode)
    (hm : ∀ p ∈ m, hexKeyCandidate p.2 = true) :
    ∀ p ∈ collectKeyStringsStep m node, hexKeyCandidate p.2 = true := by
  unfold collectKeyStringsStep
  split
  · rename_i ds
    have hds : ∀ (ds : List KDeclarator) (m : List (String × String)),
        (∀ p ∈ m, hexKeyCandidate p.2 = true) →
        ∀ p ∈ ds.foldl
          (fun m d =>
            match d with
            | KDeclarator.declarator name (some (KExpr.stringLit v)) =>
              if hexKeyCandidate v then assocUpd m name v else m
            | _ => m) m, hexKeyCandidate p.2 = true := by
      intro ds
      induction ds with
      | nil => intro m hm; simpa using hm
      | cons d rest ih =>
        intro m hm
        apply ih
        cases d with
        | declarator name ini =>
          cases ini with
          | none => simpa using hm
          | some e =>
            cases e <;> try simpa using hm
            rename_i v
            by_cases hv : hexKeyCandidate v = true
            · simpa [hv] using assocUpd_forall hm hv
            · simpa [hv] using hm
    exact hds ds m hm
  · rename_i name v
    by_cases hv : hexKeyCandidate v = true
    · simpa [hv] using assocUpd_forall hm hv
    · simpa [hv] using hm
  · exact hm

/-- Every entry of the collected `stringLiterals` map is a nonempty hex
string of length 32 or 64. -/
theorem collectPotentialKeyStrings_spec (fuel : Nat) (prog : KProgram) :
    ∀ p ∈ collectPotentialKeyStrings fuel prog, hexKeyCandidate p.2 = true := by
  unfold collectPotentialKeyStrings
  exact foldl_preserves (f := collectKeyStringsStep)
    (P := fun m => ∀ p ∈ m, hexKeyCandidate p.2 = true)
    (fun m node hm => collectKeyStringsStep_spec m node hm)
    (allProgramNodes fuel prog) [] (by simp)

/-- Reversal preserves the hex-and-nonempty test. -/
theorem strReverse_isHexStrPlus (s : String) :
    isHexStrPlus (strReverse s) = isHexStrPlus s := by
  unfold isHexStrPlus strReverse
  cases s with
  | mk data =>
    have h1 : data.reverse.isEmpty = data.isEmpty := by cases data <;> simp
    simp [h1]

/-- Reversal preserves the length. -/
theorem strReverse_length (s : String) :
    (strReverse s).length = s.length := by
  cases s with
  | mk data => simp [strReverse, String.length]

/-- Classification of a reversed value that is hex of length 32 or 64:
appended to `foundKeys`, the failure lists untouched. -/
theorem directScanClassify_hex (v : String)
    (hcand : hexKeyCandidate v = true) (ls : ExtractionLists) :
    directScanClassify (strReverse v) ls =
      { ls with foundKeys := ls.foundKeys ++ [.plainKey (strReverse v)] } := by
  simp only [hexKeyCandidate, Bool.and_eq_true, Bool.or_eq_true, beq_iff_eq]
    at hcand
  unfold directScanClassify
  rw [strReverse_isHexStrPlus, strReverse_length]
  rw [if_pos hcand.1]
  have hlen : (v.length == 32 || v.length == 64) = true := by
    rcases hcand.2 with h | h <;> simp [h]
  rw [if_pos hlen]

/-- Given the pass-1 invariant, the per-return handler of the direct scan
never touches the non-hex and wrong-length lists. -/
theorem directScanReturn_spec (strMap : List (String × String))
    (hinv : ∀ p ∈ strMap, hexKeyCandidate p.2 = true)
    (arg : Option KExpr) (ls : ExtractionLists) :
    (directScanReturn strMap arg ls).nonHexCandidates = ls.nonHexCandidates ∧
    (directScanReturn strMap arg ls).wrongLengthCandidates =
      ls.wrongLengthCandidates := by
  unfold directScanReturn
  repeat' split
  all_goals try exact ⟨rfl, rfl⟩
  rename_i hget
  rw [directScanClassify_hex _ (hinv _ (assocGet_mem hget)) ls]
  exact ⟨rfl, rfl⟩

/-- C10: every variable recorded by the direct scan's first pass holds a
hex string of length 32 or 64, and therefore the second pass — whose
reversed value is again hex of the same length — never appends to the
non-hex or wrong-length lists: those two push branches are unreachable. -/
theorem C10_direct_scan_branches (fuel : Nat) (prog : KProgram)
    (ls : ExtractionLists) :
    (∀ p ∈ collectPotentialKeyStrings fuel prog,
      isHexStrPlus p.2 = true ∧ (p.2.length = 32 ∨ p.2.length = 64)) ∧
    (directScanPass2 fuel (collectPotentialKeyStrings fuel prog) prog
        ls).nonHexCandidates = ls.nonHexCandidates ∧
    (directScanPass2 fuel (collectPotentialKeyStrings fuel prog) prog
        ls).wrongLengthCandidates = ls.wrongLengthCandidates := by
  have hinv := collectPotentialKeyStrings_spec fuel prog
  refine ⟨?_, ?_⟩
  · intro p hp
    have := hinv p hp
    simp only [hexKeyCandidate, Bool.and_eq_true, Bool.or_eq_true, beq_iff_eq]
      at this
    exact this
  · unfold directScanPass2
    have := foldl_preserves
      (f := fun ls node =>
        match node with
        | Sum.inl (KStmt.returnStmt arg) =>
          directScanReturn (collectPotentialKeyStrings fuel prog) arg ls
        | _ => ls)
      (P := fun ls' => ls'.nonHexCandidates = ls.nonHexCandidates ∧
        ls'.wrongLengthCandidates = ls.wrongLengthCandidates)
      ?_ (allProgramNodes fuel prog) ls ⟨rfl, rfl⟩
    · exact this
    · intro ls' node hP
      cases node with
      | inl s =>
        cases s with
        | returnStmt arg =>
          have h := directScanReturn_spec (collectPotentialKeyStrings fuel prog)
            hinv arg ls'
          exact ⟨h.1.trans hP.1, h.2.trans hP.2⟩
        | varDeclStmt ds => exact hP
        | exprStmt e => exact hP
        | ifStmt t c a => exact hP
        | blockStmt b => exact hP
        | functionDecl n p b => exact hP
        | otherStmt t => exact hP
      | inr e => exact hP

/-! ## Concrete instances of the remaining quantified theorems -/

/-- Witness for `C1_validator_classification`: a 32-character hex string is
classified `found` by `validateKey`. -/
theorem C1_validator_classification_witness :
    validateKey hex32Sample "s" "t" = .isValidKey hex32Sample "s" "t" [] :=
  ((C1_validator_classification hex32Sample "s" "t").1).mpr
    ⟨by decide, by decide⟩

/-- Witness for `C7_single_sweep` at the A→B→C chain. -/
theorem C7_single_sweep_witness :
    removeUnusedVariables chainABC [] =
      chainABC.filter fun d => bindingReferenced chainABC [] d.name :=
  C7_single_sweep.1 chainABC []

/-- Witness for `C8_alias_cycle_resolution` on the cyclic table. -/
theorem C8_alias_cycle_resolution_witness :
    resolveObjectName cycleAliasMap "a" = "a" ∨
      lookupAlias cycleAliasMap (resolveObjectName cycleAliasMap "a") = none :=
  (C8_alias_cycle_resolution cycleAliasMap "a").1

/-- Witness for `C9_extraction_never_mutates` on a one-statement program. -/
theorem C9_extraction_never_mutates_witness :
    keyExtractionPassTree 5 [KStmt.otherStmt 0] = [KStmt.otherStmt 0] :=
  C9_extraction_never_mutates 5 [KStmt.otherStmt 0]

/-- Witness for `C10_direct_scan_branches` on a one-statement program. -/
theorem C10_direct_scan_branches_witness :
    (directScanPass2 5 (collectPotentialKeyStrings 5 [KStmt.otherStmt 0])
        [KStmt.otherStmt 0] emptyLists).nonHexCandidates =
      emptyLists.nonHexCandidates :=
  (C10_direct_scan_branches 5 [KStmt.otherStmt 0] emptyLists).2.1

end KeyExtractor
